import Mathlib

/-!
Shallow embedding of the incremental synchronization engine of
`webapp/element43/apps/api/tasks.py` and of the bill-of-materials merge of
`webapp/element43/apps/manufacturing/functions.py`.

Database rows are modelled as lists of structures whose fields are the ones
the tasks read and write.  Calls into the external EVE API (the `eveapi`
library) and the outcome of individual ORM `save()` calls (which can raise
`IntegrityError` or `MultipleObjectsReturned` depending on the state of the
database server) are supplied by an environment record, so that each task
becomes a pure function from an environment and a database to a run result.
Timestamps are naturals (UTC seconds), money amounts are integers.
-/

namespace Element43

/-- A `Character` row: the fields read by the tasks
(`Character.objects.get(id=character_id)`, `character.apikey_id`,
`character.name`, `character.id`). -/
structure Character where
  id : Nat
  apikey_id : Nat
  name : String
deriving DecidableEq, Repr

/-- An `APIKey` row (`APIKey.objects.get(id=character.apikey_id, is_valid=True)`). -/
structure APIKey where
  id : Nat
  keyid : Nat
  vcode : String
  is_valid : Bool
deriving DecidableEq, Repr

/-- An `APITimer` row: `(character, apisheet) -> nextupdate`. -/
structure APITimer where
  character : Nat
  apisheet : String
  nextupdate : Nat
deriving DecidableEq, Repr

/-- A `MarketTransaction` row, fields as written by
`ProcessWalletTransactionsCharacter.run`. -/
structure MarketTransaction where
  character : Nat
  date : Nat
  transaction_id : Nat
  invtype_id : Nat
  quantity : Nat
  price : Int
  client_id : Nat
  client_name : String
  station_id : Nat
  is_bid : Bool
  journal_transaction_id : Nat
  is_corporate_transaction : Bool
deriving DecidableEq, Repr

/-- A `JournalEntry` row, fields as written by `ProcessWalletJournalCharacter.run`. -/
structure JournalEntry where
  ref_id : Nat
  character : Nat
  date : Nat
  ref_type_id : Nat
  amount : Int
  balance : Int
  owner_name_1 : String
  owner_id_1 : Nat
  owner_name_2 : String
  owner_id_2 : Nat
  arg_name_1 : String
  arg_id_1 : Nat
  reason : String
  tax_receiver_id : Int
  tax_amount : Int
deriving DecidableEq, Repr

/-- A `Research` row, fields as written by `ProcessResearchCharacter.run`. -/
structure Research where
  character : Nat
  agent_id : Nat
  skill_id : Nat
  start_date : Nat
  points_per_day : Int
  remainder_points : Int
deriving DecidableEq, Repr

/-- A `StaStation` row: the fields read by `ProcessMarketOrdersCharacter.run`
(`station.region`, `station.solar_system`), with region and system as ids. -/
structure StaStation where
  id : Nat
  region : Nat
  solar_system : Nat
deriving DecidableEq, Repr

/-- An `Orders` row (market_data), fields as written by
`ProcessMarketOrdersCharacter.run`. -/
structure OrdersRow where
  id : Nat
  generated_at : Nat
  mapregion : Nat
  invtype_id : Nat
  price : Int
  volume_remaining : Nat
  volume_entered : Nat
  minimum_volume : Nat
  order_range : Int
  is_bid : Bool
  issue_date : Nat
  duration : Nat
  stastation : Nat
  mapsolarsystem : Nat
  is_suspicious : Bool
  message_key : String
  uploader_ip_hash : String
  is_active : Bool
deriving DecidableEq, Repr

/-- A `MarketOrder` row, fields as written by `ProcessMarketOrdersCharacter.run`. -/
structure MarketOrder where
  id : Nat
  character : Nat
  order_state : Nat
  account_key : Nat
  escrow : Int
deriving DecidableEq, Repr

/-- The database: one list of rows per Django model touched by the tasks. -/
structure DB where
  characters : List Character
  apikeys : List APIKey
  marketTransactions : List MarketTransaction
  journalEntries : List JournalEntry
  research : List Research
  orders : List OrdersRow
  marketOrders : List MarketOrder
  staStations : List StaStation
  apiTimers : List APITimer
deriving DecidableEq, Repr

/-! Remote records as delivered by the EVE API rowsets. -/

/-- A row of a `WalletTransactions` rowset. -/
structure Transaction where
  transactionDateTime : Nat
  transactionID : Nat
  typeID : Nat
  quantity : Nat
  price : Int
  clientID : Nat
  clientName : String
  stationID : Nat
  transactionType : String
  transactionFor : String
  journalTransactionID : Nat
deriving DecidableEq, Repr

/-- A row of a `WalletJournal` rowset. -/
structure JTransaction where
  refID : Nat
  date : Nat
  refTypeID : Nat
  amount : Int
  balance : Int
  ownerName1 : String
  ownerID1 : Nat
  ownerName2 : String
  ownerID2 : Nat
  argName1 : String
  argID1 : Nat
  reason : String
  taxReceiverID : Int
  taxAmount : Int
deriving DecidableEq, Repr

/-- A row of a `Research` rowset. -/
structure RJob where
  agentID : Nat
  skillTypeID : Nat
  researchStartDate : Nat
  pointsPerDay : Int
  remainderPoints : Int
deriving DecidableEq, Repr

/-- A row of a `MarketOrders` rowset. -/
structure ROrder where
  orderID : Nat
  price : Int
  volRemaining : Nat
  volEntered : Nat
  orderState : Nat
  stationID : Nat
  typeID : Nat
  minVolume : Nat
  range : Int
  bid : Bool
  issued : Nat
  duration : Nat
  accountKey : Nat
  escrow : Int
deriving DecidableEq, Repr

/-- A fetched `WalletTransactions` page: the rowset plus the response's
`_meta.cachedUntil` instant. -/
structure TransPage where
  transactions : List Transaction
  cachedUntil : Nat
deriving DecidableEq, Repr

/-- A fetched `WalletJournal` page; the source also calls this rowset
`sheet.transactions`. -/
structure JournalPage where
  transactions : List JTransaction
  cachedUntil : Nat
deriving DecidableEq, Repr

/-- A fetched `Research` sheet. -/
structure ResearchSheet where
  research : List RJob
  cachedUntil : Nat
deriving DecidableEq, Repr

/-- A fetched `MarketOrders` sheet. -/
structure OrdersSheet where
  orders : List ROrder
  cachedUntil : Nat
deriving DecidableEq, Repr

/-- Outcome of one ORM `save()` call, decided by the database server: success,
an `IntegrityError` (stale reference table, e.g. unknown `typeID`), or a
`MultipleObjectsReturned` uniqueness violation surfacing duplicate rows. -/
inductive SaveOutcome where
  | ok
  | integrityError
  | multipleObjectsReturned
deriving DecidableEq, Repr

/-- The environment a task runs against: the external EVE API gateway
(`eveapi`), keyed fetch faults, and the current wall-clock time.
`Except.error` models an `eveapi.Error` raised by the remote call.
`keyFix` models `handle_api_exception` (module `api_exceptions`, an external
collaborator): it may only touch the credential table. -/
structure Env where
  fetchWalletTransactions : Option Nat → Except Unit TransPage
  fetchWalletJournal : Option Nat → Except Unit JournalPage
  fetchResearch : Except Unit ResearchSheet
  fetchMarketOrders : Except Unit OrdersSheet
  transSaveFault : Nat → SaveOutcome
  journalSaveFault : Nat → SaveOutcome
  ordersSaveFault : Nat → SaveOutcome
  keyFix : List APIKey → List APIKey
  now : Nat

/-- How a task run ended.  `crashed` stands for an exception that propagated
out of `run` uncaught (the celery task fails); `outOfFuel` is an artifact of
the bounded recursion used to model the `while walking` loop. -/
inductive Outcome where
  | completed
  | skippedNoKey
  | abortedAuth
  | crashed
  | outOfFuel
deriving DecidableEq, Repr

/-! Generic helpers for the ORM queries the tasks perform. -/

/-- The row produced by `.order_by(date)[:1][0]`: the first row carrying the
minimum of `f`, `none` on an empty queryset (which raises `IndexError`). -/
def oldestBy (f : α → Nat) : List α → Option α
  | [] => none
  | r :: rest =>
    match oldestBy f rest with
    | none => some r
    | some m => if f m < f r then some m else some r

/-- Deleting `duplicates[1:]`: keep the first row satisfying `p`, delete every
later row satisfying `p`, keep all other rows. -/
def deleteDuplicatesKeepFirst (p : α → Bool) : List α → List α
  | [] => []
  | x :: xs =>
    if p x then x :: xs.filter (fun y => !(p y))
    else x :: deleteDuplicatesKeepFirst p xs

/-- The timer write `timer = APITimer.objects.get(character=..., apisheet=...);
timer.nextupdate = v; timer.save()` as an in-place row update. -/
def setTimer (timers : List APITimer) (cid : Nat) (sheetName : String) (v : Nat) :
    List APITimer :=
  timers.map fun t =>
    if t.character == cid && t.apisheet == sheetName then { t with nextupdate := v } else t

/-! The wallet-transactions walker (`ProcessWalletTransactionsCharacter.run`). -/

/-- The `MarketTransaction(...)` constructor call of the transactions walker. -/
def mkMarketTransaction (cid : Nat) (t : Transaction) : MarketTransaction :=
  { character := cid
    date := t.transactionDateTime
    transaction_id := t.transactionID
    invtype_id := t.typeID
    quantity := t.quantity
    price := t.price
    client_id := t.clientID
    client_name := t.clientName
    station_id := t.stationID
    is_bid := t.transactionType == "buy"
    journal_transaction_id := t.journalTransactionID
    is_corporate_transaction := t.transactionFor == "corporation" }

/-- The `for transaction in sheet.transactions` loop of the transactions
walker, together with its surrounding `try/except MultipleObjectsReturned`.
A known id sets `walking = False` without breaking the loop; an
`IntegrityError` on `save()` is logged and skipped; a
`MultipleObjectsReturned` aborts the `for` loop (the `except` block sits
outside it) and its handler deletes all but the first duplicate row.
Returns the database and the final `walking` value. -/
def transPageLoop (env : Env) (cid : Nat) (existing : List Nat) :
    List Transaction → DB → Bool → DB × Bool
  | [], db, walking => (db, walking)
  | t :: rest, db, walking =>
    if t.journalTransactionID ∈ existing then
      transPageLoop env cid existing rest db false
    else
      match env.transSaveFault t.journalTransactionID with
      | .ok =>
        transPageLoop env cid existing rest
          { db with marketTransactions :=
              db.marketTransactions ++ [mkMarketTransaction cid t] } walking
      | .integrityError =>
        transPageLoop env cid existing rest db walking
      | .multipleObjectsReturned =>
        ({ db with marketTransactions :=
            (deleteDuplicatesKeepFirst
              (fun r => r.journal_transaction_id == t.journalTransactionID &&
                r.character == cid)
              db.marketTransactions) },
         walking)

/-- One recorded call to `me.WalletTransactions(rowCount=2560, fromID=cursor)`:
the cursor passed (none for the initial fetch), a snapshot of the
`MarketTransaction` table at the moment of the call, and the page obtained. -/
structure TransFetchCall where
  cursor : Option Nat
  rowsBefore : List MarketTransaction
  page : TransPage
deriving DecidableEq, Repr

/-- Result of a transactions walker run. -/
structure TransRunResult where
  db : DB
  fetchLog : List TransFetchCall
  outcome : Outcome
deriving Repr

/-- The `while walking` loop of the transactions walker.  `sheet` is the page
currently held.  An empty rowset ends the walk; otherwise the page is
reconciled, and if still walking the cursor is recomputed as the oldest stored
row's `journal_transaction_id` (an empty queryset raises `IndexError`, which
this walker catches and turns into `walking = False`).  A failing mid-walk
fetch raises an uncaught `eveapi.Error`: the run crashes, the timer line after
the loop is never reached. -/
def transWalk (env : Env) (cid : Nat) :
    Nat → TransPage → DB → List TransFetchCall → TransRunResult
  | 0, _, db, fetchLog => ⟨db, fetchLog, .outOfFuel⟩
  | fuel + 1, sheet, db, fetchLog =>
    if sheet.transactions.isEmpty then
      ⟨{ db with apiTimers :=
          setTimer db.apiTimers cid "WalletTransactions" sheet.cachedUntil },
       fetchLog, .completed⟩
    else
      let existing := (db.marketTransactions.filter (fun r => r.character == cid)).map
        (fun r => r.journal_transaction_id)
      let res := transPageLoop env cid existing sheet.transactions db true
      if res.2 then
        match oldestBy (fun r => r.date)
            (res.1.marketTransactions.filter (fun r => r.character == cid)) with
        | none =>
          ⟨{ res.1 with apiTimers :=
              (setTimer res.1.apiTimers cid "WalletTransactions" sheet.cachedUntil) },
           fetchLog, .completed⟩
        | some oldest =>
          match env.fetchWalletTransactions (some oldest.journal_transaction_id) with
          | .error _ => ⟨res.1, fetchLog, .crashed⟩
          | .ok sheet' =>
            transWalk env cid fuel sheet' res.1
              (fetchLog ++
                [⟨some oldest.journal_transaction_id, res.1.marketTransactions, sheet'⟩])
      else
        ⟨{ res.1 with apiTimers :=
            (setTimer res.1.apiTimers cid "WalletTransactions" sheet.cachedUntil) },
         fetchLog, .completed⟩

/-- The whole `ProcessWalletTransactionsCharacter.run(character_id)` task:
resolve the character (an unknown id raises `DoesNotExist`, uncaught), resolve
a valid key (none means return silently), fetch the first page (an
`eveapi.Error` is handled by `handle_api_exception` and ends the run), then
walk. -/
def processWalletTransactionsCharacter (fuel : Nat) (env : Env) (db : DB)
    (character_id : Nat) : TransRunResult :=
  match db.characters.find? (fun c => c.id == character_id) with
  | none => ⟨db, [], .crashed⟩
  | some character =>
    match db.apikeys.find? (fun k => k.id == character.apikey_id && k.is_valid) with
    | none => ⟨db, [], .skippedNoKey⟩
    | some _ =>
      match env.fetchWalletTransactions none with
      | .error _ => ⟨{ db with apikeys := env.keyFix db.apikeys }, [], .abortedAuth⟩
      | .ok sheet =>
        transWalk env character.id fuel sheet db [⟨none, db.marketTransactions, sheet⟩]

/-! The wallet-journal walker (`ProcessWalletJournalCharacter.run`). -/

/-- The `JournalEntry(...)` constructor call of the journal walker. -/
def mkJournalEntry (cid : Nat) (t : JTransaction) : JournalEntry :=
  { ref_id := t.refID
    character := cid
    date := t.date
    ref_type_id := t.refTypeID
    amount := t.amount
    balance := t.balance
    owner_name_1 := t.ownerName1
    owner_id_1 := t.ownerID1
    owner_name_2 := t.ownerName2
    owner_id_2 := t.ownerID2
    arg_name_1 := t.argName1
    arg_id_1 := t.argID1
    reason := t.reason
    tax_receiver_id := t.taxReceiverID
    tax_amount := t.taxAmount }

/-- The `for transaction in sheet.transactions` loop of the journal walker.
Here the `try/except MultipleObjectsReturned` sits inside the `for` loop, so
after the corrective deletion the loop continues with the next record; but
this walker has no `IntegrityError` handler, so such an error propagates out
of `run` uncaught.  Returns the database, the final `walking` value, and
whether the run crashed. -/
def journalPageLoop (env : Env) (cid : Nat) (existing : List Nat) :
    List JTransaction → DB → Bool → DB × Bool × Bool
  | [], db, walking => (db, walking, false)
  | t :: rest, db, walking =>
    if t.refID ∈ existing then
      journalPageLoop env cid existing rest db false
    else
      match env.journalSaveFault t.refID with
      | .ok =>
        journalPageLoop env cid existing rest
          { db with journalEntries :=
              db.journalEntries ++ [mkJournalEntry cid t] } walking
      | .integrityError =>
        (db, walking, true)
      | .multipleObjectsReturned =>
        journalPageLoop env cid existing rest
          { db with journalEntries :=
              (deleteDuplicatesKeepFirst
                (fun r => r.ref_id == t.refID && r.character == cid)
                db.journalEntries) } walking

/-- One recorded call to `me.WalletJournal(rowCount=2560, fromID=cursor)`. -/
structure JournalFetchCall where
  cursor : Option Nat
  rowsBefore : List JournalEntry
  page : JournalPage
deriving DecidableEq, Repr

/-- Result of a journal walker run. -/
structure JournalRunResult where
  db : DB
  fetchLog : List JournalFetchCall
  outcome : Outcome
deriving Repr

/-- The `while walking` loop of the journal walker.  Unlike the transactions
walker, the cursor query `JournalEntry.objects.filter(...).order_by(date)[:1][0]`
has no surrounding `try`, so an empty queryset raises an uncaught
`IndexError` and the run crashes. -/
def journalWalk (env : Env) (cid : Nat) :
    Nat → JournalPage → DB → List JournalFetchCall → JournalRunResult
  | 0, _, db, fetchLog => ⟨db, fetchLog, .outOfFuel⟩
  | fuel + 1, sheet, db, fetchLog =>
    if sheet.transactions.isEmpty then
      ⟨{ db with apiTimers :=
          setTimer db.apiTimers cid "WalletJournal" sheet.cachedUntil },
       fetchLog, .completed⟩
    else
      let existing := (db.journalEntries.filter (fun r => r.character == cid)).map
        (fun r => r.ref_id)
      let res := journalPageLoop env cid existing sheet.transactions db true
      if res.2.2 then
        ⟨res.1, fetchLog, .crashed⟩
      else if res.2.1 then
        match oldestBy (fun r => r.date)
            (res.1.journalEntries.filter (fun r => r.character == cid)) with
        | none => ⟨res.1, fetchLog, .crashed⟩
        | some oldest =>
          match env.fetchWalletJournal (some oldest.ref_id) with
          | .error _ => ⟨res.1, fetchLog, .crashed⟩
          | .ok sheet' =>
            journalWalk env cid fuel sheet' res.1
              (fetchLog ++ [⟨some oldest.ref_id, res.1.journalEntries, sheet'⟩])
      else
        ⟨{ res.1 with apiTimers :=
            (setTimer res.1.apiTimers cid "WalletJournal" sheet.cachedUntil) },
         fetchLog, .completed⟩

/-- The whole `ProcessWalletJournalCharacter.run(character_id)` task. -/
def processWalletJournalCharacter (fuel : Nat) (env : Env) (db : DB)
    (character_id : Nat) : JournalRunResult :=
  match db.characters.find? (fun c => c.id == character_id) with
  | none => ⟨db, [], .crashed⟩
  | some character =>
    match db.apikeys.find? (fun k => k.id == character.apikey_id && k.is_valid) with
    | none => ⟨db, [], .skippedNoKey⟩
    | some _ =>
      match env.fetchWalletJournal none with
      | .error _ => ⟨{ db with apikeys := env.keyFix db.apikeys }, [], .abortedAuth⟩
      | .ok sheet =>
        journalWalk env character.id fuel sheet db [⟨none, db.journalEntries, sheet⟩]

/-! The research task (`ProcessResearchCharacter.run`). -/

/-- Result of a research or market-orders run (no walking, no fetch cursor). -/
structure PlainRunResult where
  db : DB
  outcome : Outcome
deriving Repr

/-- The `Research(...)` constructor call of the research task. -/
def mkResearch (cid : Nat) (job : RJob) : Research :=
  { character := cid
    agent_id := job.agentID
    skill_id := job.skillTypeID
    start_date := job.researchStartDate
    points_per_day := job.pointsPerDay
    remainder_points := job.remainderPoints }

/-- The whole `ProcessResearchCharacter.run(character_id)` task: resolve the
character and a valid key, fetch the sheet, delete every `Research` row of the
character, insert one row per job of the sheet, update the timer. -/
def processResearchCharacter (env : Env) (db : DB) (character_id : Nat) :
    PlainRunResult :=
  match db.characters.find? (fun c => c.id == character_id) with
  | none => ⟨db, .crashed⟩
  | some character =>
    match db.apikeys.find? (fun k => k.id == character.apikey_id && k.is_valid) with
    | none => ⟨db, .skippedNoKey⟩
    | some _ =>
      match env.fetchResearch with
      | .error _ => ⟨{ db with apikeys := env.keyFix db.apikeys }, .abortedAuth⟩
      | .ok sheet =>
        let db1 := { db with research :=
          (db.research.filter (fun r => !(r.character == character.id))) }
        let db2 := { db1 with research :=
          (db1.research ++ sheet.research.map (mkResearch character.id)) }
        ⟨{ db2 with apiTimers :=
            (setTimer db2.apiTimers character.id "Research" sheet.cachedUntil) },
         .completed⟩

/-! The market-orders task (`ProcessMarketOrdersCharacter.run`). -/

/-- Updating the row returned by `.objects.get(...)` and calling `save()` on
it: rewrite the matching rows in place. -/
def updateWhere (p : α → Bool) (f : α → α) (l : List α) : List α :=
  l.map fun x => if p x then f x else x

/-- The body of the `for order in orders.orders` loop: upsert into `Orders`
(an unknown `stationID` raises an uncaught `StaStation.DoesNotExist`; an
`IntegrityError` on the insert skips the rest of this order via `continue`),
then upsert into `MarketOrder`.  Returns the database and whether the run
crashed. -/
def ordersOrderStep (env : Env) (cid : Nat) (db : DB) (o : ROrder) : DB × Bool :=
  let marketOrderStep := fun (db : DB) =>
    match db.marketOrders.find? (fun m => m.id == o.orderID) with
    | some _ =>
      { db with marketOrders :=
          (updateWhere (fun m => m.id == o.orderID)
            (fun m => { m with order_state := o.orderState }) db.marketOrders) }
    | none =>
      { db with marketOrders :=
          (db.marketOrders ++
            [{ id := o.orderID, character := cid, order_state := o.orderState,
               account_key := o.accountKey, escrow := o.escrow }]) }
  match db.orders.find? (fun r => r.id == o.orderID) with
  | some _ =>
    let db1 := { db with orders :=
      (updateWhere (fun r => r.id == o.orderID)
        (fun r => { r with
          generated_at := env.now
          price := o.price
          volume_remaining := o.volRemaining
          volume_entered := o.volEntered
          is_suspicious := false
          is_active := o.orderState == 0 }) db.orders) }
    (marketOrderStep db1, false)
  | none =>
    match db.staStations.find? (fun s => s.id == o.stationID) with
    | none => (db, true)
    | some station =>
      match env.ordersSaveFault o.orderID with
      | .integrityError => (db, false)
      | _ =>
        let db1 := { db with orders :=
          (db.orders ++
            [{ id := o.orderID
               generated_at := env.now
               mapregion := station.region
               invtype_id := o.typeID
               price := o.price
               volume_remaining := o.volRemaining
               volume_entered := o.volEntered
               minimum_volume := o.minVolume
               order_range := o.range
               is_bid := o.bid
               issue_date := o.issued
               duration := o.duration
               stastation := station.id
               mapsolarsystem := station.solar_system
               is_suspicious := false
               message_key := "eveapi"
               uploader_ip_hash := "eveapi"
               is_active := true }]) }
        (marketOrderStep db1, false)

/-- The `for order in orders.orders` loop; stops at the first crash. -/
def ordersLoop (env : Env) (cid : Nat) : List ROrder → DB → DB × Bool
  | [], db => (db, false)
  | o :: rest, db =>
    let step := ordersOrderStep env cid db o
    if step.2 then (step.1, true) else ordersLoop env cid rest step.1

/-- The whole `ProcessMarketOrdersCharacter.run(character_id)` task. -/
def processMarketOrdersCharacter (env : Env) (db : DB) (character_id : Nat) :
    PlainRunResult :=
  match db.characters.find? (fun c => c.id == character_id) with
  | none => ⟨db, .crashed⟩
  | some character =>
    match db.apikeys.find? (fun k => k.id == character.apikey_id && k.is_valid) with
    | none => ⟨db, .skippedNoKey⟩
    | some _ =>
      match env.fetchMarketOrders with
      | .error _ => ⟨{ db with apikeys := env.keyFix db.apikeys }, .abortedAuth⟩
      | .ok sheet =>
        let res := ordersLoop env character.id sheet.orders db
        if res.2 then ⟨res.1, .crashed⟩
        else
          ⟨{ res.1 with apiTimers :=
              (setTimer res.1.apiTimers character.id "MarketOrders"
                sheet.cachedUntil) },
           .completed⟩

/-! The bill-of-materials merge
(`webapp/element43/apps/manufacturing/functions.py`, `merge_bill_of_materials`). -/

/-- A bill-of-materials entry: the dictionary built in `get_materials`. -/
structure Material where
  id : Nat
  name : String
  quantity : Int
  volume : Int
  price : Int
  price_total : Int
  producible : Bool
deriving DecidableEq, Repr

/-- The non-quantity fields of a material, as a tuple. -/
def Material.rest (m : Material) : Nat × String × Int × Int × Int × Bool :=
  (m.id, m.name, m.volume, m.price, m.price_total, m.producible)

/-- The mutation `material[quantity] += item[quantity]` applied to the first
entry of the accumulator carrying id `i`. -/
def bumpFirst (i : Nat) (q : Int) : List Material → List Material
  | [] => []
  | m :: rest =>
    if m.id == i then { m with quantity := m.quantity + q } :: rest
    else m :: bumpFirst i q rest

/-- One step of the merge loop: if the accumulator already holds the item's
id, add the item's quantity to that entry, else append the item. -/
def mergeStep (materials : List Material) (item : Material) : List Material :=
  if materials.any (fun m => m.id == item.id) then bumpFirst item.id item.quantity materials
  else materials ++ [item]

/-- The function `merge_bill_of_materials(materials1, materials2)`: fold the
merge step over `itertools.chain(materials1, materials2)` starting from an
empty list. -/
def merge_bill_of_materials (materials1 materials2 : List Material) : List Material :=
  (materials1 ++ materials2).foldl mergeStep []

/-- The total quantity carried by the entries of `l` with id `i`. -/
def totalQty (i : Nat) (l : List Material) : Int :=
  ((l.filter (fun m => m.id == i)).map (fun m => m.quantity)).sum

/-! A concrete backward-paginated remote feed, used to instantiate the
abstract gateway of `Env` in walk-termination scenarios. -/

/-- Modelled from the spec: the external EVE API capability
`fetch(endpoint, credential, cursor?, pageSize) -> Page` (the `eveapi`
library is not part of this repository).  The feed is the full remote
history, newest first; a fetch with `fromID` returns the records strictly
after the record carrying that id. -/
def feedAfter (key : α → Nat) (fromID : Nat) : List α → List α
  | [] => []
  | t :: rest => if key t == fromID then rest else feedAfter key fromID rest

/-- Modelled from the spec: a `WalletTransactions` endpoint serving a fixed
feed page by page, never failing, with a fixed `cachedUntil`. -/
def paginatedTransFetch (feed : List Transaction) (pageSize cu : Nat) :
    Option Nat → Except Unit TransPage
  | none => .ok ⟨feed.take pageSize, cu⟩
  | some fid => .ok ⟨(feedAfter (fun t => t.journalTransactionID) fid feed).take pageSize, cu⟩

/-- Modelled from the spec: a `WalletJournal` endpoint serving a fixed feed. -/
def paginatedJournalFetch (feed : List JTransaction) (pageSize cu : Nat) :
    Option Nat → Except Unit JournalPage
  | none => .ok ⟨feed.take pageSize, cu⟩
  | some fid => .ok ⟨(feedAfter (fun t => t.refID) fid feed).take pageSize, cu⟩

/-! Concrete fixtures used to instantiate the theorems below. -/

/-- A remote wallet transaction with the given id and date, other fields
inert. -/
def tTrans (jid date : Nat) : Transaction :=
  { transactionDateTime := date, transactionID := jid, typeID := 0, quantity := 1,
    price := 0, clientID := 0, clientName := "", stationID := 0,
    transactionType := "sell", transactionFor := "personal",
    journalTransactionID := jid }

/-- A remote journal record with the given id and date, other fields inert. -/
def jTrans (rid date : Nat) : JTransaction :=
  { refID := rid, date := date, refTypeID := 0, amount := 0, balance := 0,
    ownerName1 := "", ownerID1 := 0, ownerName2 := "", ownerID2 := 0,
    argName1 := "", argID1 := 0, reason := "", taxReceiverID := 0, taxAmount := 0 }

/-- An environment whose remote endpoints all fail and whose saves all
succeed; scenarios override single fields. -/
def baseEnv : Env :=
  { fetchWalletTransactions := fun _ => .error ()
    fetchWalletJournal := fun _ => .error ()
    fetchResearch := .error ()
    fetchMarketOrders := .error ()
    transSaveFault := fun _ => .ok
    journalSaveFault := fun _ => .ok
    ordersSaveFault := fun _ => .ok
    keyFix := id
    now := 0 }

/-- A database with one character (id 1) holding one valid key and one timer
row per stream. -/
def baseDB : DB :=
  { characters := [⟨1, 1, "x"⟩]
    apikeys := [⟨1, 0, "", true⟩]
    marketTransactions := []
    journalEntries := []
    research := []
    orders := []
    marketOrders := []
    staStations := []
    apiTimers := [⟨1, "WalletTransactions", 0⟩, ⟨1, "WalletJournal", 0⟩,
                  ⟨1, "Research", 0⟩, ⟨1, "MarketOrders", 0⟩] }

/-! Helper lemmas about the query embeddings. -/

theorem oldestBy_eq_none {f : α → Nat} {l : List α} :
    oldestBy f l = none ↔ l = [] := by
  cases l with
  | nil => simp [oldestBy]
  | cons r rest =>
    simp only [oldestBy]
    cases h : oldestBy f rest with
    | none => simp
    | some m =>
      constructor
      · intro hc
        by_cases hlt : f m < f r <;> simp [hlt] at hc
      · intro hc
        exact absurd hc (by simp)

theorem oldestBy_mem {f : α → Nat} {l : List α} {m : α}
    (h : oldestBy f l = some m) : m ∈ l := by
  induction l with
  | nil => simp [oldestBy] at h
  | cons r rest ih =>
    simp only [oldestBy] at h
    cases hr : oldestBy f rest with
    | none =>
      rw [hr] at h
      simp at h
      simp [h]
    | some m' =>
      rw [hr] at h
      by_cases hlt : f m' < f r
      · simp [hlt] at h
        subst h
        exact List.mem_cons_of_mem _ (ih hr)
      · simp [hlt] at h
        simp [h]

theorem oldestBy_strictMin {f : α → Nat} {l : List α} {m : α} (hm : m ∈ l)
    (hlt : ∀ x ∈ l, x ≠ m → f m < f x) : oldestBy f l = some m := by
  induction l with
  | nil => simp at hm
  | cons r rest ih =>
    simp only [oldestBy]
    by_cases hmr : m ∈ rest
    · have hrec : oldestBy f rest = some m :=
        ih hmr (fun x hx hne => hlt x (List.mem_cons_of_mem _ hx) hne)
      rw [hrec]
      by_cases hre : r = m
      · subst hre
        simp
      · have : f m < f r := hlt r (List.mem_cons_self _ _) hre
        simp [this]
    · have hrm : m = r := by
        rcases List.mem_cons.mp hm with h | h
        · exact h
        · exact absurd h hmr
      subst hrm
      cases hrest : oldestBy f rest with
      | none => rfl
      | some m' =>
        have hm' : m' ∈ rest := oldestBy_mem hrest
        have hne : m' ≠ m := fun he => hmr (he ▸ hm')
        have : f m < f m' := hlt m' (List.mem_cons_of_mem _ hm') hne
        have hnl : ¬(f m' < f m) := by omega
        simp [hnl]

theorem countP_deleteDuplicatesKeepFirst (p : α → Bool) (l : List α) :
    (deleteDuplicatesKeepFirst p l).countP p = min (l.countP p) 1 := by
  induction l with
  | nil => simp [deleteDuplicatesKeepFirst]
  | cons x xs ih =>
    simp only [deleteDuplicatesKeepFirst]
    by_cases hp : p x
    · rw [if_pos hp]
      have hz : (xs.filter (fun y => !(p y))).countP p = 0 := by
        rw [List.countP_eq_zero]
        intro a ha
        have := List.of_mem_filter ha
        simp at this
        simp [this]
      rw [List.countP_cons, List.countP_cons, hz, if_pos hp]
      omega
    · rw [if_neg hp]
      rw [List.countP_cons, List.countP_cons, ih, if_neg hp]
      simp

theorem feedAfter_getLast (key : α → Nat) (l : List α) (h : l ≠ [])
    (hnd : (l.map key).Nodup) :
    feedAfter key (key (l.getLast h)) l = [] := by
  induction l with
  | nil => exact absurd rfl h
  | cons x xs ih =>
    cases xs with
    | nil => simp [feedAfter, List.getLast]
    | cons y ys =>
      have hxs' : y :: ys ≠ [] := by simp
      have hlast : (x :: y :: ys).getLast h = (y :: ys).getLast hxs' := rfl
      rw [hlast]
      have hmem : (y :: ys).getLast hxs' ∈ y :: ys := List.getLast_mem hxs'
      have hx : key x ∉ (y :: ys).map key := by
        rw [List.map_cons] at hnd
        exact (List.nodup_cons.mp hnd).1
      have hne : (key x == key ((y :: ys).getLast hxs')) = false := by
        rw [beq_eq_false_iff_ne]
        intro he
        exact hx (he ▸ List.mem_map_of_mem key hmem)
      simp only [feedAfter, hne]
      exact ih hxs' (by rw [List.map_cons] at hnd; exact (List.nodup_cons.mp hnd).2)

/-! Closed forms of the page loops when every save succeeds, and frame lemmas
showing the loops never touch the timer table. -/

theorem transPageLoop_ok (env : Env) (cid : Nat) (existing : List Nat)
    (page : List Transaction) (db : DB) (w : Bool)
    (hok : ∀ t ∈ page, env.transSaveFault t.journalTransactionID = .ok) :
    transPageLoop env cid existing page db w =
      ({ db with marketTransactions := (db.marketTransactions ++
          ((page.filter (fun t => !(decide (t.journalTransactionID ∈ existing)))).map
            (mkMarketTransaction cid))) },
       w && page.all (fun t => !(decide (t.journalTransactionID ∈ existing)))) := by
  induction page generalizing db w with
  | nil => simp [transPageLoop]
  | cons t rest ih =>
    have hokt := hok t (List.mem_cons_self _ _)
    have hokr : ∀ x ∈ rest, env.transSaveFault x.journalTransactionID = .ok :=
      fun x hx => hok x (List.mem_cons_of_mem _ hx)
    by_cases hmem : t.journalTransactionID ∈ existing
    · simp only [transPageLoop, if_pos hmem]
      rw [ih _ _ hokr]
      simp [hmem]
    · simp only [transPageLoop, if_neg hmem, hokt]
      rw [ih _ _ hokr]
      simp [hmem, List.append_assoc]

theorem journalPageLoop_ok (env : Env) (cid : Nat) (existing : List Nat)
    (page : List JTransaction) (db : DB) (w : Bool)
    (hok : ∀ t ∈ page, env.journalSaveFault t.refID = .ok) :
    journalPageLoop env cid existing page db w =
      ({ db with journalEntries := (db.journalEntries ++
          ((page.filter (fun t => !(decide (t.refID ∈ existing)))).map
            (mkJournalEntry cid))) },
       w && page.all (fun t => !(decide (t.refID ∈ existing))), false) := by
  induction page generalizing db w with
  | nil => simp [journalPageLoop]
  | cons t rest ih =>
    have hokt := hok t (List.mem_cons_self _ _)
    have hokr : ∀ x ∈ rest, env.journalSaveFault x.refID = .ok :=
      fun x hx => hok x (List.mem_cons_of_mem _ hx)
    by_cases hmem : t.refID ∈ existing
    · simp only [journalPageLoop, if_pos hmem]
      rw [ih _ _ hokr]
      simp [hmem]
    · simp only [journalPageLoop, if_neg hmem, hokt]
      rw [ih _ _ hokr]
      simp [hmem, List.append_assoc]

theorem transPageLoop_apiTimers (env : Env) (cid : Nat) (existing : List Nat)
    (page : List Transaction) (db : DB) (w : Bool) :
    (transPageLoop env cid existing page db w).1.apiTimers = db.apiTimers := by
  induction page generalizing db w with
  | nil => simp [transPageLoop]
  | cons t rest ih =>
    by_cases hmem : t.journalTransactionID ∈ existing
    · simp only [transPageLoop, if_pos hmem]
      exact ih _ _
    · simp only [transPageLoop, if_neg hmem]
      cases env.transSaveFault t.journalTransactionID with
      | ok => exact ih _ _
      | integrityError => exact ih _ _
      | multipleObjectsReturned => rfl

theorem journalPageLoop_apiTimers (env : Env) (cid : Nat) (existing : List Nat)
    (page : List JTransaction) (db : DB) (w : Bool) :
    (journalPageLoop env cid existing page db w).1.apiTimers = db.apiTimers := by
  induction page generalizing db w with
  | nil => simp [journalPageLoop]
  | cons t rest ih =>
    by_cases hmem : t.refID ∈ existing
    · simp only [journalPageLoop, if_pos hmem]
      exact ih _ _
    · simp only [journalPageLoop, if_neg hmem]
      cases env.journalSaveFault t.refID with
      | ok => exact ih _ _
      | integrityError => rfl
      | multipleObjectsReturned => exact ih _ _

theorem ordersOrderStep_apiTimers (env : Env) (cid : Nat) (db : DB) (o : ROrder) :
    (ordersOrderStep env cid db o).1.apiTimers = db.apiTimers := by
  unfold ordersOrderStep
  cases db.orders.find? (fun r => r.id == o.orderID) with
  | some r =>
    simp only
    cases db.marketOrders.find? (fun m => m.id == o.orderID) <;> rfl
  | none =>
    simp only
    cases db.staStations.find? (fun s => s.id == o.stationID) with
    | none => rfl
    | some station =>
      cases env.ordersSaveFault o.orderID with
      | ok =>
        simp only
        cases db.marketOrders.find? (fun m => m.id == o.orderID) <;> rfl
      | integrityError => rfl
      | multipleObjectsReturned =>
        simp only
        cases db.marketOrders.find? (fun m => m.id == o.orderID) <;> rfl

theorem ordersLoop_apiTimers (env : Env) (cid : Nat) (l : List ROrder) (db : DB) :
    (ordersLoop env cid l db).1.apiTimers = db.apiTimers := by
  induction l generalizing db with
  | nil => rfl
  | cons o rest ih =>
    simp only [ordersLoop]
    by_cases hc : (ordersOrderStep env cid db o).2
    · simp [hc, ordersOrderStep_apiTimers]
    · simp [hc, ih, ordersOrderStep_apiTimers]

/-! Timer behavior of the walk loops. -/

theorem transWalk_not_completed_apiTimers (env : Env) (cid : Nat) (fuel : Nat)
    (sheet : TransPage) (db : DB) (log : List TransFetchCall)
    (h : (transWalk env cid fuel sheet db log).outcome ≠ .completed) :
    (transWalk env cid fuel sheet db log).db.apiTimers = db.apiTimers := by
  induction fuel generalizing sheet db log with
  | zero => rfl
  | succ n ih =>
    simp only [transWalk] at h ⊢
    by_cases he : sheet.transactions.isEmpty
    · simp [he] at h
    · simp only [if_neg he] at h ⊢
      by_cases hw : (transPageLoop env cid
          ((db.marketTransactions.filter (fun r => r.character == cid)).map
            (fun r => r.journal_transaction_id)) sheet.transactions db true).2
      · simp only [if_pos hw] at h ⊢
        cases ho : oldestBy (fun r => r.date)
            ((transPageLoop env cid
              ((db.marketTransactions.filter (fun r => r.character == cid)).map
                (fun r => r.journal_transaction_id)) sheet.transactions db true).1.marketTransactions.filter
              (fun r => r.character == cid)) with
        | none => simp [ho] at h
        | some oldest =>
          simp only [ho] at h ⊢
          cases hf : env.fetchWalletTransactions (some oldest.journal_transaction_id) with
          | error e =>
            simp only [hf] at h ⊢
            exact transPageLoop_apiTimers env cid _ _ db true
          | ok sheet' =>
            simp only [hf] at h ⊢
            rw [ih _ _ _ h]
            exact transPageLoop_apiTimers env cid _ _ db true
      · simp [hw] at h

theorem transWalk_completed_timers (env : Env) (cid : Nat) (fuel : Nat)
    (sheet : TransPage) (db : DB) (log : List TransFetchCall)
    (hlast : ∃ e, log.getLast? = some e ∧ e.page = sheet)
    (hc : (transWalk env cid fuel sheet db log).outcome = .completed) :
    ∃ e, (transWalk env cid fuel sheet db log).fetchLog.getLast? = some e ∧
      (transWalk env cid fuel sheet db log).db.apiTimers =
        setTimer db.apiTimers cid "WalletTransactions" e.page.cachedUntil := by
  induction fuel generalizing sheet db log with
  | zero => exact absurd hc (by simp [transWalk])
  | succ n ih =>
    obtain ⟨e0, he0, hpage⟩ := hlast
    simp only [transWalk] at hc ⊢
    by_cases he : sheet.transactions.isEmpty
    · simp only [if_pos he]
      exact ⟨e0, he0, by rw [hpage]⟩
    · simp only [if_neg he] at hc ⊢
      by_cases hw : (transPageLoop env cid
          ((db.marketTransactions.filter (fun r => r.character == cid)).map
            (fun r => r.journal_transaction_id)) sheet.transactions db true).2
      · simp only [if_pos hw] at hc ⊢
        cases ho : oldestBy (fun r => r.date)
            ((transPageLoop env cid
              ((db.marketTransactions.filter (fun r => r.character == cid)).map
                (fun r => r.journal_transaction_id)) sheet.transactions db true).1.marketTransactions.filter
              (fun r => r.character == cid)) with
        | none =>
          simp only [ho] at hc ⊢
          refine ⟨e0, he0, ?_⟩
          rw [hpage, transPageLoop_apiTimers env cid _ _ db true]
        | some oldest =>
          simp only [ho] at hc ⊢
          cases hf : env.fetchWalletTransactions (some oldest.journal_transaction_id) with
          | error e => simp [hf] at hc
          | ok sheet' =>
            simp only [hf] at hc ⊢
            have := ih sheet'
              (transPageLoop env cid
                ((db.marketTransactions.filter (fun r => r.character == cid)).map
                  (fun r => r.journal_transaction_id)) sheet.transactions db true).1
              (log ++ [⟨some oldest.journal_transaction_id,
                (transPageLoop env cid
                  ((db.marketTransactions.filter (fun r => r.character == cid)).map
                    (fun r => r.journal_transaction_id)) sheet.transactions db true).1.marketTransactions,
                sheet'⟩])
              ⟨_, by rw [List.getLast?_append_cons]; rfl, rfl⟩ hc
            obtain ⟨e, hel, het⟩ := this
            exact ⟨e, hel, by
              rw [het, transPageLoop_apiTimers env cid _ _ db true]⟩
      · simp only [if_neg hw] at hc ⊢
        refine ⟨e0, he0, ?_⟩
        rw [hpage, transPageLoop_apiTimers env cid _ _ db true]

theorem journalWalk_not_completed_apiTimers (env : Env) (cid : Nat) (fuel : Nat)
    (sheet : JournalPage) (db : DB) (log : List JournalFetchCall)
    (h : (journalWalk env cid fuel sheet db log).outcome ≠ .completed) :
    (journalWalk env cid fuel sheet db log).db.apiTimers = db.apiTimers := by
  induction fuel generalizing sheet db log with
  | zero => rfl
  | succ n ih =>
    simp only [journalWalk] at h ⊢
    by_cases he : sheet.transactions.isEmpty
    · simp [he] at h
    · simp only [if_neg he] at h ⊢
      by_cases hcr : (journalPageLoop env cid
          ((db.journalEntries.filter (fun r => r.character == cid)).map
            (fun r => r.ref_id)) sheet.transactions db true).2.2
      · simp only [if_pos hcr] at h ⊢
        exact journalPageLoop_apiTimers env cid _ _ db true
      · simp only [if_neg hcr] at h ⊢
        by_cases hw : (journalPageLoop env cid
            ((db.journalEntries.filter (fun r => r.character == cid)).map
              (fun r => r.ref_id)) sheet.transactions db true).2.1
        · simp only [if_pos hw] at h ⊢
          cases ho : oldestBy (fun r => r.date)
              ((journalPageLoop env cid
                ((db.journalEntries.filter (fun r => r.character == cid)).map
                  (fun r => r.ref_id)) sheet.transactions db true).1.journalEntries.filter
                (fun r => r.character == cid)) with
          | none =>
            simp only [ho] at h ⊢
            exact journalPageLoop_apiTimers env cid _ _ db true
          | some oldest =>
            simp only [ho] at h ⊢
            cases hf : env.fetchWalletJournal (some oldest.ref_id) with
            | error e =>
              simp only [hf] at h ⊢
              exact journalPageLoop_apiTimers env cid _ _ db true
            | ok sheet' =>
              simp only [hf] at h ⊢
              rw [ih _ _ _ h]
              exact journalPageLoop_apiTimers env cid _ _ db true
        · simp [hw] at h

theorem journalWalk_completed_timers (env : Env) (cid : Nat) (fuel : Nat)
    (sheet : JournalPage) (db : DB) (log : List JournalFetchCall)
    (hlast : ∃ e, log.getLast? = some e ∧ e.page = sheet)
    (hc : (journalWalk env cid fuel sheet db log).outcome = .completed) :
    ∃ e, (journalWalk env cid fuel sheet db log).fetchLog.getLast? = some e ∧
      (journalWalk env cid fuel sheet db log).db.apiTimers =
        setTimer db.apiTimers cid "WalletJournal" e.page.cachedUntil := by
  induction fuel generalizing sheet db log with
  | zero => exact absurd hc (by simp [journalWalk])
  | succ n ih =>
    obtain ⟨e0, he0, hpage⟩ := hlast
    simp only [journalWalk] at hc ⊢
    by_cases he : sheet.transactions.isEmpty
    · simp only [if_pos he]
      exact ⟨e0, he0, by rw [hpage]⟩
    · simp only [if_neg he] at hc ⊢
      by_cases hcr : (journalPageLoop env cid
          ((db.journalEntries.filter (fun r => r.character == cid)).map
            (fun r => r.ref_id)) sheet.transactions db true).2.2
      · simp [hcr] at hc
      · simp only [if_neg hcr] at hc ⊢
        by_cases hw : (journalPageLoop env cid
            ((db.journalEntries.filter (fun r => r.character == cid)).map
              (fun r => r.ref_id)) sheet.transactions db true).2.1
        · simp only [if_pos hw] at hc ⊢
          cases ho : oldestBy (fun r => r.date)
              ((journalPageLoop env cid
                ((db.journalEntries.filter (fun r => r.character == cid)).map
                  (fun r => r.ref_id)) sheet.transactions db true).1.journalEntries.filter
                (fun r => r.character == cid)) with
          | none => simp [ho] at hc
          | some oldest =>
            simp only [ho] at hc ⊢
            cases hf : env.fetchWalletJournal (some oldest.ref_id) with
            | error e => simp [hf] at hc
            | ok sheet' =>
              simp only [hf] at hc ⊢
              have := ih sheet'
                (journalPageLoop env cid
                  ((db.journalEntries.filter (fun r => r.character == cid)).map
                    (fun r => r.ref_id)) sheet.transactions db true).1
                (log ++ [⟨some oldest.ref_id,
                  (journalPageLoop env cid
                    ((db.journalEntries.filter (fun r => r.character == cid)).map
                      (fun r => r.ref_id)) sheet.transactions db true).1.journalEntries,
                  sheet'⟩])
                ⟨_, by rw [List.getLast?_append_cons]; rfl, rfl⟩ hc
              obtain ⟨e, hel, het⟩ := this
              exact ⟨e, hel, by
                rw [het, journalPageLoop_apiTimers env cid _ _ db true]⟩
        · simp only [if_neg hw] at hc ⊢
          refine ⟨e0, he0, ?_⟩
          rw [hpage, journalPageLoop_apiTimers env cid _ _ db true]

/-! Scenario fixtures. -/

/-- Scenario: one row (id 10) already stored for character 1, on both wallet
streams. -/
def dbS1 : DB := { baseDB with
  marketTransactions := [mkMarketTransaction 1 (tTrans 10 5)]
  journalEntries := [mkJournalEntry 1 (jTrans 10 5)] }

/-- Scenario: the first page of either wallet stream holds the known record
(id 10) followed by a new one (id 7); any further page is empty. -/
def envS1 : Env := { baseEnv with
  fetchWalletTransactions := fun c => match c with
    | none => .ok ⟨[tTrans 10 5, tTrans 7 4], 99⟩
    | some _ => .ok ⟨[], 99⟩
  fetchWalletJournal := fun c => match c with
    | none => .ok ⟨[jTrans 10 5, jTrans 7 4], 99⟩
    | some _ => .ok ⟨[], 99⟩ }

/-- C3 helper fact: the predicate of `characters.find?` forces the id. -/
theorem find?_character_id {db : DB} {cid : Nat} {ch : Character}
    (h : db.characters.find? (fun c => c.id == cid) = some ch) : ch.id = cid := by
  simpa using List.find?_some h

/-- C3: after a walker run that completes successfully, the APITimer rows for
that character and stream carry the `cachedUntil` of the last successfully
fetched page of the run, and a run that does not complete (no valid key,
authentication failure, a crash) leaves the timer table unchanged — for the
wallet-transactions, wallet-journal and market-orders tasks alike. -/
theorem timer_update_spec (fuel : Nat) (env : Env) (db : DB) (cid : Nat) :
    (((processWalletTransactionsCharacter fuel env db cid).outcome = .completed →
        ∃ e, (processWalletTransactionsCharacter fuel env db cid).fetchLog.getLast? = some e ∧
          (processWalletTransactionsCharacter fuel env db cid).db.apiTimers =
            setTimer db.apiTimers cid "WalletTransactions" e.page.cachedUntil) ∧
      ((processWalletTransactionsCharacter fuel env db cid).outcome ≠ .completed →
        (processWalletTransactionsCharacter fuel env db cid).db.apiTimers = db.apiTimers)) ∧
    (((processWalletJournalCharacter fuel env db cid).outcome = .completed →
        ∃ e, (processWalletJournalCharacter fuel env db cid).fetchLog.getLast? = some e ∧
          (processWalletJournalCharacter fuel env db cid).db.apiTimers =
            setTimer db.apiTimers cid "WalletJournal" e.page.cachedUntil) ∧
      ((processWalletJournalCharacter fuel env db cid).outcome ≠ .completed →
        (processWalletJournalCharacter fuel env db cid).db.apiTimers = db.apiTimers)) ∧
    ((∀ sheet, env.fetchMarketOrders = .ok sheet →
        (processMarketOrdersCharacter env db cid).outcome = .completed →
        (processMarketOrdersCharacter env db cid).db.apiTimers =
          setTimer db.apiTimers cid "MarketOrders" sheet.cachedUntil) ∧
      ((processMarketOrdersCharacter env db cid).outcome ≠ .completed →
        (processMarketOrdersCharacter env db cid).db.apiTimers = db.apiTimers)) := by
  refine ⟨⟨?_, ?_⟩, ⟨?_, ?_⟩, ?_, ?_⟩
  · intro hc
    cases hch : db.characters.find? (fun c => c.id == cid) with
    | none => simp [processWalletTransactionsCharacter, hch] at hc
    | some ch =>
      have hid := find?_character_id hch
      cases hk : db.apikeys.find? (fun k => k.id == ch.apikey_id && k.is_valid) with
      | none => simp [processWalletTransactionsCharacter, hch, hk] at hc
      | some k =>
        cases hf : env.fetchWalletTransactions none with
        | error e => simp [processWalletTransactionsCharacter, hch, hk, hf] at hc
        | ok sheet =>
          simp only [processWalletTransactionsCharacter, hch, hk, hf] at hc ⊢
          rw [hid] at hc ⊢
          exact transWalk_completed_timers env cid fuel sheet db _ ⟨_, rfl, rfl⟩ hc
  · intro hc
    cases hch : db.characters.find? (fun c => c.id == cid) with
    | none => simp [processWalletTransactionsCharacter, hch]
    | some ch =>
      have hid := find?_character_id hch
      cases hk : db.apikeys.find? (fun k => k.id == ch.apikey_id && k.is_valid) with
      | none => simp [processWalletTransactionsCharacter, hch, hk]
      | some k =>
        cases hf : env.fetchWalletTransactions none with
        | error e => simp [processWalletTransactionsCharacter, hch, hk, hf]
        | ok sheet =>
          simp only [processWalletTransactionsCharacter, hch, hk, hf] at hc ⊢
          rw [hid] at hc ⊢
          exact transWalk_not_completed_apiTimers env cid fuel sheet db _ hc
  · intro hc
    cases hch : db.characters.find? (fun c => c.id == cid) with
    | none => simp [processWalletJournalCharacter, hch] at hc
    | some ch =>
      have hid := find?_character_id hch
      cases hk : db.apikeys.find? (fun k => k.id == ch.apikey_id && k.is_valid) with
      | none => simp [processWalletJournalCharacter, hch, hk] at hc
      | some k =>
        cases hf : env.fetchWalletJournal none with
        | error e => simp [processWalletJournalCharacter, hch, hk, hf] at hc
        | ok sheet =>
          simp only [processWalletJournalCharacter, hch, hk, hf] at hc ⊢
          rw [hid] at hc ⊢
          exact journalWalk_completed_timers env cid fuel sheet db _ ⟨_, rfl, rfl⟩ hc
  · intro hc
    cases hch : db.characters.find? (fun c => c.id == cid) with
    | none => simp [processWalletJournalCharacter, hch]
    | some ch =>
      have hid := find?_character_id hch
      cases hk : db.apikeys.find? (fun k => k.id == ch.apikey_id && k.is_valid) with
      | none => simp [processWalletJournalCharacter, hch, hk]
      | some k =>
        cases hf : env.fetchWalletJournal none with
        | error e => simp [processWalletJournalCharacter, hch, hk, hf]
        | ok sheet =>
          simp only [processWalletJournalCharacter, hch, hk, hf] at hc ⊢
          rw [hid] at hc ⊢
          exact journalWalk_not_completed_apiTimers env cid fuel sheet db _ hc
  · intro sheet hsheet hc
    cases hch : db.characters.find? (fun c => c.id == cid) with
    | none => simp [processMarketOrdersCharacter, hch] at hc
    | some ch =>
      have hid := find?_character_id hch
      cases hk : db.apikeys.find? (fun k => k.id == ch.apikey_id && k.is_valid) with
      | none => simp [processMarketOrdersCharacter, hch, hk] at hc
      | some k =>
        simp only [processMarketOrdersCharacter, hch, hk, hsheet] at hc ⊢
        rw [hid] at hc ⊢
        by_cases hcr : (ordersLoop env cid sheet.orders db).2
        · simp [hcr] at hc
        · simp only [if_neg hcr]
          rw [ordersLoop_apiTimers env cid sheet.orders db]
  · intro hc
    cases hch : db.characters.find? (fun c => c.id == cid) with
    | none => simp [processMarketOrdersCharacter, hch]
    | some ch =>
      have hid := find?_character_id hch
      cases hk : db.apikeys.find? (fun k => k.id == ch.apikey_id && k.is_valid) with
      | none => simp [processMarketOrdersCharacter, hch, hk]
      | some k =>
        cases hf : env.fetchMarketOrders with
        | error e => simp [processMarketOrdersCharacter, hch, hk, hf]
        | ok sheet =>
          simp only [processMarketOrdersCharacter, hch, hk, hf] at hc ⊢
          rw [hid] at hc ⊢
          by_cases hcr : (ordersLoop env cid sheet.orders db).2
          · simp only [if_pos hcr] at hc ⊢
            exact ordersLoop_apiTimers env cid sheet.orders db
          · simp [hcr] at hc

/-- C3 witness: a concrete successful transactions run sets the timer from the
last fetched page. -/
theorem timer_update_spec_witness :
    ∃ e, (processWalletTransactionsCharacter 5 envS1 dbS1 1).fetchLog.getLast? = some e ∧
      (processWalletTransactionsCharacter 5 envS1 dbS1 1).db.apiTimers =
        setTimer dbS1.apiTimers 1 "WalletTransactions" e.page.cachedUntil :=
  (timer_update_spec 5 envS1 dbS1 1).1.1 (by decide)

/-- Database whose only key is marked invalid. -/
def dbS7 : DB := { baseDB with apikeys := [⟨1, 0, "", false⟩] }

/-- C7: a character without a valid API key makes every task return
immediately: the database (records and timers) is untouched, no fetch is
performed, and the outcome is a silent skip, not an error. -/
theorem no_valid_key_skip (fuel : Nat) (env : Env) (db : DB) (cid : Nat)
    (ch : Character)
    (hch : db.characters.find? (fun c => c.id == cid) = some ch)
    (hk : db.apikeys.find? (fun k => k.id == ch.apikey_id && k.is_valid) = none) :
    processWalletTransactionsCharacter fuel env db cid = ⟨db, [], .skippedNoKey⟩ ∧
    processWalletJournalCharacter fuel env db cid = ⟨db, [], .skippedNoKey⟩ ∧
    processResearchCharacter env db cid = ⟨db, .skippedNoKey⟩ ∧
    processMarketOrdersCharacter env db cid = ⟨db, .skippedNoKey⟩ := by
  refine ⟨?_, ?_, ?_, ?_⟩ <;>
    simp [processWalletTransactionsCharacter, processWalletJournalCharacter,
      processResearchCharacter, processMarketOrdersCharacter, hch, hk]

/-- C7 witness: the concrete invalid-key database is returned unchanged by all
four tasks. -/
theorem no_valid_key_skip_witness :
    processWalletTransactionsCharacter 3 baseEnv dbS7 1 = ⟨dbS7, [], .skippedNoKey⟩ ∧
    processWalletJournalCharacter 3 baseEnv dbS7 1 = ⟨dbS7, [], .skippedNoKey⟩ ∧
    processResearchCharacter baseEnv dbS7 1 = ⟨dbS7, .skippedNoKey⟩ ∧
    processMarketOrdersCharacter baseEnv dbS7 1 = ⟨dbS7, .skippedNoKey⟩ :=
  no_valid_key_skip 3 baseEnv dbS7 1 ⟨1, 1, "x"⟩ (by decide) (by decide)

/-- Scenario: the first transactions page holds one new record and every
mid-walk fetch fails transiently. -/
def envS4 : Env := { baseEnv with
  fetchWalletTransactions := fun c => match c with
    | none => .ok ⟨[tTrans 5 5], 9⟩
    | some _ => .error ()
  fetchWalletJournal := fun c => match c with
    | none => .ok ⟨[jTrans 5 5], 9⟩
    | some _ => .error () }

/-- C4: when a mid-walk page fetch fails after a first page was reconciled,
the run crashes, every record persisted from the earlier page remains in
storage (the final record table is exactly the old one plus the first page's
inserts) and the timer table is unchanged — for both wallet walkers. -/
theorem partial_failure_retention (fuel : Nat) (env : Env) (db : DB) (cid : Nat)
    (ch : Character) (k : APIKey) (page : TransPage) (jpage : JournalPage)
    (hfuel : 1 ≤ fuel)
    (hch : db.characters.find? (fun c => c.id == cid) = some ch)
    (hk : db.apikeys.find? (fun k => k.id == ch.apikey_id && k.is_valid) = some k)
    (hf1 : env.fetchWalletTransactions none = .ok page)
    (hne : page.transactions ≠ [])
    (hok : ∀ t ∈ page.transactions, env.transSaveFault t.journalTransactionID = .ok)
    (hnew : ∀ t ∈ page.transactions, t.journalTransactionID ∉
      ((db.marketTransactions.filter (fun r => r.character == cid)).map
        (fun r => r.journal_transaction_id)))
    (hfail : ∀ c, env.fetchWalletTransactions (some c) = .error ())
    (hjf1 : env.fetchWalletJournal none = .ok jpage)
    (hjne : jpage.transactions ≠ [])
    (hjok : ∀ t ∈ jpage.transactions, env.journalSaveFault t.refID = .ok)
    (hjnew : ∀ t ∈ jpage.transactions, t.refID ∉
      ((db.journalEntries.filter (fun r => r.character == cid)).map
        (fun r => r.ref_id)))
    (hjfail : ∀ c, env.fetchWalletJournal (some c) = .error ()) :
    ((processWalletTransactionsCharacter fuel env db cid).outcome = .crashed ∧
      (processWalletTransactionsCharacter fuel env db cid).db.marketTransactions =
        db.marketTransactions ++ page.transactions.map (mkMarketTransaction cid) ∧
      (processWalletTransactionsCharacter fuel env db cid).db.apiTimers = db.apiTimers) ∧
    ((processWalletJournalCharacter fuel env db cid).outcome = .crashed ∧
      (processWalletJournalCharacter fuel env db cid).db.journalEntries =
        db.journalEntries ++ jpage.transactions.map (mkJournalEntry cid) ∧
      (processWalletJournalCharacter fuel env db cid).db.apiTimers = db.apiTimers) := by
  obtain ⟨n, rfl⟩ : ∃ n, fuel = n + 1 := ⟨fuel - 1, by omega⟩
  have hid := find?_character_id hch
  have hfe : page.transactions.isEmpty = false := by
    cases hp : page.transactions with
    | nil => exact absurd hp hne
    | cons a l => rfl
  have hjfe : jpage.transactions.isEmpty = false := by
    cases hp : jpage.transactions with
    | nil => exact absurd hp hjne
    | cons a l => rfl
  have hfilter : page.transactions.filter
      (fun t => !(decide (t.journalTransactionID ∈
        ((db.marketTransactions.filter (fun r => r.character == cid)).map
          (fun r => r.journal_transaction_id))))) = page.transactions :=
    List.filter_eq_self.mpr (fun t ht => by simp [hnew t ht])
  have hall : page.transactions.all
      (fun t => !(decide (t.journalTransactionID ∈
        ((db.marketTransactions.filter (fun r => r.character == cid)).map
          (fun r => r.journal_transaction_id))))) = true :=
    List.all_eq_true.mpr (fun t ht => by simp [hnew t ht])
  have hjfilter : jpage.transactions.filter
      (fun t => !(decide (t.refID ∈
        ((db.journalEntries.filter (fun r => r.character == cid)).map
          (fun r => r.ref_id))))) = jpage.transactions :=
    List.filter_eq_self.mpr (fun t ht => by simp [hjnew t ht])
  have hjall : jpage.transactions.all
      (fun t => !(decide (t.refID ∈
        ((db.journalEntries.filter (fun r => r.character == cid)).map
          (fun r => r.ref_id))))) = true :=
    List.all_eq_true.mpr (fun t ht => by simp [hjnew t ht])
  constructor
  · simp only [processWalletTransactionsCharacter, hch, hk, hf1, hid]
    simp only [transWalk, hfe, Bool.false_eq_true, if_false]
    rw [transPageLoop_ok env cid _ page.transactions db true hok, hfilter, hall]
    simp only [Bool.and_self, if_true]
    have hmem : ∀ t0 ∈ page.transactions, mkMarketTransaction cid t0 ∈
        ((db.marketTransactions ++ page.transactions.map (mkMarketTransaction cid)).filter
          (fun r => r.character == cid)) := by
      intro t0 ht0
      refine List.mem_filter.mpr ⟨?_, by simp [mkMarketTransaction]⟩
      exact List.mem_append_right _ (List.mem_map_of_mem _ ht0)
    obtain ⟨t0, ht0⟩ : ∃ t0, t0 ∈ page.transactions := by
      cases hp : page.transactions with
      | nil => exact absurd hp hne
      | cons a l => exact ⟨a, by simp [hp]⟩
    cases ho : oldestBy (fun r => r.date)
        ((db.marketTransactions ++ page.transactions.map (mkMarketTransaction cid)).filter
          (fun r => r.character == cid)) with
    | none =>
      rw [oldestBy_eq_none] at ho
      rw [ho] at hmem
      exact absurd (hmem t0 ht0) (by simp)
    | some oldest =>
      simp only [hfail oldest.journal_transaction_id]
      simp
  · simp only [processWalletJournalCharacter, hch, hk, hjf1, hid]
    simp only [journalWalk, hjfe, Bool.false_eq_true, if_false]
    rw [journalPageLoop_ok env cid _ jpage.transactions db true hjok, hjfilter, hjall]
    simp only [Bool.and_self, if_true]
    have hmem : ∀ t0 ∈ jpage.transactions, mkJournalEntry cid t0 ∈
        ((db.journalEntries ++ jpage.transactions.map (mkJournalEntry cid)).filter
          (fun r => r.character == cid)) := by
      intro t0 ht0
      refine List.mem_filter.mpr ⟨?_, by simp [mkJournalEntry]⟩
      exact List.mem_append_right _ (List.mem_map_of_mem _ ht0)
    obtain ⟨t0, ht0⟩ : ∃ t0, t0 ∈ jpage.transactions := by
      cases hp : jpage.transactions with
      | nil => exact absurd hp hjne
      | cons a l => exact ⟨a, by simp [hp]⟩
    cases ho : oldestBy (fun r => r.date)
        ((db.journalEntries ++ jpage.transactions.map (mkJournalEntry cid)).filter
          (fun r => r.character == cid)) with
    | none =>
      rw [oldestBy_eq_none] at ho
      rw [ho] at hmem
      exact absurd (hmem t0 ht0) (by simp)
    | some oldest =>
      simp only [hjfail oldest.ref_id]
      simp

/-- C4 witness: the concrete one-page-then-failure scenario keeps the page-1
record and the original timers. -/
theorem partial_failure_retention_witness :
    ((processWalletTransactionsCharacter 2 envS4 baseDB 1).outcome = .crashed ∧
      (processWalletTransactionsCharacter 2 envS4 baseDB 1).db.marketTransactions =
        baseDB.marketTransactions ++
          [tTrans 5 5].map (mkMarketTransaction 1) ∧
      (processWalletTransactionsCharacter 2 envS4 baseDB 1).db.apiTimers =
        baseDB.apiTimers) ∧
    ((processWalletJournalCharacter 2 envS4 baseDB 1).outcome = .crashed ∧
      (processWalletJournalCharacter 2 envS4 baseDB 1).db.journalEntries =
        baseDB.journalEntries ++ [jTrans 5 5].map (mkJournalEntry 1) ∧
      (processWalletJournalCharacter 2 envS4 baseDB 1).db.apiTimers =
        baseDB.apiTimers) :=
  partial_failure_retention 2 envS4 baseDB 1 ⟨1, 1, "x"⟩ ⟨1, 0, "", true⟩
    ⟨[tTrans 5 5], 9⟩ ⟨[jTrans 5 5], 9⟩ (by omega) (by decide) (by decide)
    rfl (by decide) (by decide) (by decide) (fun c => rfl)
    rfl (by decide) (by decide) (by decide) (fun c => rfl)

/-! Every fetch the walk loops perform after the first uses a cursor
recomputed from the stored rows. -/

theorem transWalk_log_cursor (env : Env) (cid : Nat) (fuel : Nat)
    (sheet : TransPage) (db : DB) (log : List TransFetchCall) :
    ∃ extra, (transWalk env cid fuel sheet db log).fetchLog = log ++ extra ∧
      ∀ e ∈ extra, ∃ m,
        oldestBy (fun r => r.date)
          (e.rowsBefore.filter (fun r => r.character == cid)) = some m ∧
        e.cursor = some m.journal_transaction_id := by
  induction fuel generalizing sheet db log with
  | zero => exact ⟨[], by simp [transWalk], by simp⟩
  | succ n ih =>
    simp only [transWalk]
    by_cases he : sheet.transactions.isEmpty
    · simp only [if_pos he]
      exact ⟨[], by simp, by simp⟩
    · simp only [if_neg he]
      by_cases hw : (transPageLoop env cid
          ((db.marketTransactions.filter (fun r => r.character == cid)).map
            (fun r => r.journal_transaction_id)) sheet.transactions db true).2
      · simp only [if_pos hw]
        cases ho : oldestBy (fun r => r.date)
            ((transPageLoop env cid
              ((db.marketTransactions.filter (fun r => r.character == cid)).map
                (fun r => r.journal_transaction_id)) sheet.transactions db true).1.marketTransactions.filter
              (fun r => r.character == cid)) with
        | none => exact ⟨[], by simp, by simp⟩
        | some oldest =>
          cases hf : env.fetchWalletTransactions (some oldest.journal_transaction_id) with
          | error e => exact ⟨[], by simp [hf], by simp⟩
          | ok sheet' =>
            simp only [hf]
            obtain ⟨extra, hlog, hq⟩ := ih sheet'
              (transPageLoop env cid
                ((db.marketTransactions.filter (fun r => r.character == cid)).map
                  (fun r => r.journal_transaction_id)) sheet.transactions db true).1
              (log ++ [⟨some oldest.journal_transaction_id,
                (transPageLoop env cid
                  ((db.marketTransactions.filter (fun r => r.character == cid)).map
                    (fun r => r.journal_transaction_id)) sheet.transactions db true).1.marketTransactions,
                sheet'⟩])
            refine ⟨⟨some oldest.journal_transaction_id,
              (transPageLoop env cid
                ((db.marketTransactions.filter (fun r => r.character == cid)).map
                  (fun r => r.journal_transaction_id)) sheet.transactions db true).1.marketTransactions,
              sheet'⟩ :: extra, ?_, ?_⟩
            · rw [hlog, List.append_assoc]
              rfl
            · intro e hee
              rcases List.mem_cons.mp hee with rfl | hmem
              · exact ⟨oldest, ho, rfl⟩
              · exact hq e hmem
      · simp only [if_neg hw]
        exact ⟨[], by simp, by simp⟩

theorem journalWalk_log_cursor (env : Env) (cid : Nat) (fuel : Nat)
    (sheet : JournalPage) (db : DB) (log : List JournalFetchCall) :
    ∃ extra, (journalWalk env cid fuel sheet db log).fetchLog = log ++ extra ∧
      ∀ e ∈ extra, ∃ m,
        oldestBy (fun r => r.date)
          (e.rowsBefore.filter (fun r => r.character == cid)) = some m ∧
        e.cursor = some m.ref_id := by
  induction fuel generalizing sheet db log with
  | zero => exact ⟨[], by simp [journalWalk], by simp⟩
  | succ n ih =>
    simp only [journalWalk]
    by_cases he : sheet.transactions.isEmpty
    · simp only [if_pos he]
      exact ⟨[], by simp, by simp⟩
    · simp only [if_neg he]
      by_cases hcr : (journalPageLoop env cid
          ((db.journalEntries.filter (fun r => r.character == cid)).map
            (fun r => r.ref_id)) sheet.transactions db true).2.2
      · simp only [if_pos hcr]
        exact ⟨[], by simp, by simp⟩
      · simp only [if_neg hcr]
        by_cases hw : (journalPageLoop env cid
            ((db.journalEntries.filter (fun r => r.character == cid)).map
              (fun r => r.ref_id)) sheet.transactions db true).2.1
        · simp only [if_pos hw]
          cases ho : oldestBy (fun r => r.date)
              ((journalPageLoop env cid
                ((db.journalEntries.filter (fun r => r.character == cid)).map
                  (fun r => r.ref_id)) sheet.transactions db true).1.journalEntries.filter
                (fun r => r.character == cid)) with
          | none => exact ⟨[], by simp, by simp⟩
          | some oldest =>
            cases hf : env.fetchWalletJournal (some oldest.ref_id) with
            | error e => exact ⟨[], by simp [hf], by simp⟩
            | ok sheet' =>
              simp only [hf]
              obtain ⟨extra, hlog, hq⟩ := ih sheet'
                (journalPageLoop env cid
                  ((db.journalEntries.filter (fun r => r.character == cid)).map
                    (fun r => r.ref_id)) sheet.transactions db true).1
                (log ++ [⟨some oldest.ref_id,
                  (journalPageLoop env cid
                    ((db.journalEntries.filter (fun r => r.character == cid)).map
                      (fun r => r.ref_id)) sheet.transactions db true).1.journalEntries,
                  sheet'⟩])
              refine ⟨⟨some oldest.ref_id,
                (journalPageLoop env cid
                  ((db.journalEntries.filter (fun r => r.character == cid)).map
                    (fun r => r.ref_id)) sheet.transactions db true).1.journalEntries,
                sheet'⟩ :: extra, ?_, ?_⟩
              · rw [hlog, List.append_assoc]
                rfl
              · intro e hee
                rcases List.mem_cons.mp hee with rfl | hmem
                · exact ⟨oldest, ho, rfl⟩
                · exact hq e hmem
        · simp only [if_neg hw]
          exact ⟨[], by simp, by simp⟩

/-- Scenario: a two-record feed, page size 1, oldest record (id 1) already
stored; the walk performs a second, cursor-driven fetch. -/
def feedS2 : List Transaction := [tTrans 2 2, tTrans 1 1]

/-- The same two-record feed on the journal stream. -/
def jFeedS2 : List JTransaction := [jTrans 2 2, jTrans 1 1]

/-- Scenario database for the paginated feed: the historical record stored on
both wallet streams. -/
def dbS2 : DB := { baseDB with
  marketTransactions := [mkMarketTransaction 1 (tTrans 1 1)]
  journalEntries := [mkJournalEntry 1 (jTrans 1 1)] }

/-- Scenario environment serving `feedS2` and `jFeedS2` one record per page. -/
def envS2 : Env := { baseEnv with
  fetchWalletTransactions := paginatedTransFetch feedS2 1 77
  fetchWalletJournal := paginatedJournalFetch jFeedS2 1 77 }

/-- C8: in both wallet walkers, the first fetch of a run carries no cursor and
every subsequent fetch call's cursor is recomputed from the row snapshot at
the time of the call, as the reference id of the oldest stored row (ordered by
date) for that character — never carried over from the previous response. -/
theorem cursor_recompute_spec (fuel : Nat) (env : Env) (db : DB) (cid : Nat) :
    ((∀ e, (processWalletTransactionsCharacter fuel env db cid).fetchLog.head? = some e →
        e.cursor = none) ∧
      ∀ e ∈ (processWalletTransactionsCharacter fuel env db cid).fetchLog.tail, ∃ m,
        oldestBy (fun r => r.date)
          (e.rowsBefore.filter (fun r => r.character == cid)) = some m ∧
        e.cursor = some m.journal_transaction_id) ∧
    ((∀ e, (processWalletJournalCharacter fuel env db cid).fetchLog.head? = some e →
        e.cursor = none) ∧
      ∀ e ∈ (processWalletJournalCharacter fuel env db cid).fetchLog.tail, ∃ m,
        oldestBy (fun r => r.date)
          (e.rowsBefore.filter (fun r => r.character == cid)) = some m ∧
        e.cursor = some m.ref_id) := by
  constructor
  · cases hch : db.characters.find? (fun c => c.id == cid) with
    | none => simp [processWalletTransactionsCharacter, hch]
    | some ch =>
      have hid := find?_character_id hch
      cases hk : db.apikeys.find? (fun k => k.id == ch.apikey_id && k.is_valid) with
      | none => simp [processWalletTransactionsCharacter, hch, hk]
      | some k =>
        cases hf : env.fetchWalletTransactions none with
        | error e => simp [processWalletTransactionsCharacter, hch, hk, hf]
        | ok sheet =>
          simp only [processWalletTransactionsCharacter, hch, hk, hf, hid]
          obtain ⟨extra, hlog, hq⟩ := transWalk_log_cursor env cid fuel sheet db
            [⟨none, db.marketTransactions, sheet⟩]
          rw [hlog]
          exact ⟨fun e hee => by simp at hee; rw [← hee], fun e hee => hq e (by simpa using hee)⟩
  · cases hch : db.characters.find? (fun c => c.id == cid) with
    | none => simp [processWalletJournalCharacter, hch]
    | some ch =>
      have hid := find?_character_id hch
      cases hk : db.apikeys.find? (fun k => k.id == ch.apikey_id && k.is_valid) with
      | none => simp [processWalletJournalCharacter, hch, hk]
      | some k =>
        cases hf : env.fetchWalletJournal none with
        | error e => simp [processWalletJournalCharacter, hch, hk, hf]
        | ok sheet =>
          simp only [processWalletJournalCharacter, hch, hk, hf, hid]
          obtain ⟨extra, hlog, hq⟩ := journalWalk_log_cursor env cid fuel sheet db
            [⟨none, db.journalEntries, sheet⟩]
          rw [hlog]
          exact ⟨fun e hee => by simp at hee; rw [← hee], fun e hee => hq e (by simpa using hee)⟩

/-- C8 witness: in the concrete paginated-feed scenario the second fetch's
cursor equals the oldest stored row's reference id at that moment. -/
theorem cursor_recompute_spec_witness :
    ∃ m, oldestBy (fun r => r.date)
        ((⟨some 1, [mkMarketTransaction 1 (tTrans 1 1), mkMarketTransaction 1 (tTrans 2 2)],
          ⟨[], 77⟩⟩ : TransFetchCall).rowsBefore.filter (fun r => r.character == 1)) = some m ∧
      (⟨some 1, [mkMarketTransaction 1 (tTrans 1 1), mkMarketTransaction 1 (tTrans 2 2)],
        ⟨[], 77⟩⟩ : TransFetchCall).cursor = some m.journal_transaction_id :=
  (cursor_recompute_spec 9 envS2 dbS2 1).1.2
    ⟨some 1, [mkMarketTransaction 1 (tTrans 1 1), mkMarketTransaction 1 (tTrans 2 2)], ⟨[], 77⟩⟩
    (by decide)

/-! C1: what finding an already-known record actually does to the page. -/

/-- C1 counterexample: the first page starts with the already-stored record
(id 10), yet the record positioned after it (id 7) is still inserted — the
walker does not stop processing the page. -/
theorem known_record_page_counterexample :
    10 ∈ (dbS1.marketTransactions.filter (fun r => r.character == 1)).map
      (fun r => r.journal_transaction_id) ∧
    envS1.fetchWalletTransactions none = .ok ⟨[tTrans 10 5, tTrans 7 4], 99⟩ ∧
    mkMarketTransaction 1 (tTrans 7 4) ∈
      (processWalletTransactionsCharacter 5 envS1 dbS1 1).db.marketTransactions :=
  ⟨by decide, rfl, by decide⟩

/-- C1 amended: when a fetched page contains an already-known record (and no
save fault interferes), the walker does set its continue-walking value to
false and fetches no further page — the run completes with exactly one fetch —
but it does not stop processing the page: every record of the page whose id is
not already known, wherever it sits relative to the known one, is still
inserted.  This holds for both wallet walkers. -/
theorem known_record_stops_walk_not_page (fuel : Nat) (env : Env) (db : DB)
    (cid : Nat) (ch : Character) (k : APIKey) (page : TransPage) (jpage : JournalPage)
    (hch : db.characters.find? (fun c => c.id == cid) = some ch)
    (hk : db.apikeys.find? (fun k => k.id == ch.apikey_id && k.is_valid) = some k)
    (hf1 : env.fetchWalletTransactions none = .ok page)
    (hok : ∀ t ∈ page.transactions, env.transSaveFault t.journalTransactionID = .ok)
    (hknown : ∃ t ∈ page.transactions, t.journalTransactionID ∈
      ((db.marketTransactions.filter (fun r => r.character == cid)).map
        (fun r => r.journal_transaction_id)))
    (hjf1 : env.fetchWalletJournal none = .ok jpage)
    (hjok : ∀ t ∈ jpage.transactions, env.journalSaveFault t.refID = .ok)
    (hjknown : ∃ t ∈ jpage.transactions, t.refID ∈
      ((db.journalEntries.filter (fun r => r.character == cid)).map
        (fun r => r.ref_id))) :
    ((processWalletTransactionsCharacter (fuel + 1) env db cid).outcome = .completed ∧
      (processWalletTransactionsCharacter (fuel + 1) env db cid).fetchLog.length = 1 ∧
      ∀ t ∈ page.transactions, t.journalTransactionID ∉
          ((db.marketTransactions.filter (fun r => r.character == cid)).map
            (fun r => r.journal_transaction_id)) →
        mkMarketTransaction cid t ∈
          (processWalletTransactionsCharacter (fuel + 1) env db cid).db.marketTransactions) ∧
    ((processWalletJournalCharacter (fuel + 1) env db cid).outcome = .completed ∧
      (processWalletJournalCharacter (fuel + 1) env db cid).fetchLog.length = 1 ∧
      ∀ t ∈ jpage.transactions, t.refID ∉
          ((db.journalEntries.filter (fun r => r.character == cid)).map
            (fun r => r.ref_id)) →
        mkJournalEntry cid t ∈
          (processWalletJournalCharacter (fuel + 1) env db cid).db.journalEntries) := by
  have hid := find?_character_id hch
  constructor
  · obtain ⟨t1, ht1, ht1m⟩ := hknown
    have hfe : page.transactions.isEmpty = false := by
      cases hp : page.transactions with
      | nil => rw [hp] at ht1; simp at ht1
      | cons a l => rfl
    have hall : page.transactions.all
        (fun t => !(decide (t.journalTransactionID ∈
          ((db.marketTransactions.filter (fun r => r.character == cid)).map
            (fun r => r.journal_transaction_id))))) = false := by
      rw [List.all_eq_false]
      exact ⟨t1, ht1, by simp [ht1m]⟩
    simp only [processWalletTransactionsCharacter, hch, hk, hf1, hid]
    simp only [transWalk, hfe, Bool.false_eq_true, if_false]
    rw [transPageLoop_ok env cid _ page.transactions db true hok, hall]
    simp only [Bool.true_and, Bool.false_eq_true, if_false]
    refine ⟨by simp, by simp, ?_⟩
    intro t ht htn
    have : t ∈ page.transactions.filter
        (fun t => !(decide (t.journalTransactionID ∈
          ((db.marketTransactions.filter (fun r => r.character == cid)).map
            (fun r => r.journal_transaction_id))))) :=
      List.mem_filter.mpr ⟨ht, by simp [htn]⟩
    exact List.mem_append_right _ (List.mem_map_of_mem _ this)
  · obtain ⟨t1, ht1, ht1m⟩ := hjknown
    have hfe : jpage.transactions.isEmpty = false := by
      cases hp : jpage.transactions with
      | nil => rw [hp] at ht1; simp at ht1
      | cons a l => rfl
    have hall : jpage.transactions.all
        (fun t => !(decide (t.refID ∈
          ((db.journalEntries.filter (fun r => r.character == cid)).map
            (fun r => r.ref_id))))) = false := by
      rw [List.all_eq_false]
      exact ⟨t1, ht1, by simp [ht1m]⟩
    simp only [processWalletJournalCharacter, hch, hk, hjf1, hid]
    simp only [journalWalk, hfe, Bool.false_eq_true, if_false]
    rw [journalPageLoop_ok env cid _ jpage.transactions db true hjok, hall]
    simp only [Bool.true_and, Bool.false_eq_true, if_false]
    refine ⟨by simp, by simp, ?_⟩
    intro t ht htn
    have : t ∈ jpage.transactions.filter
        (fun t => !(decide (t.refID ∈
          ((db.journalEntries.filter (fun r => r.character == cid)).map
            (fun r => r.ref_id))))) :=
      List.mem_filter.mpr ⟨ht, by simp [htn]⟩
    exact List.mem_append_right _ (List.mem_map_of_mem _ this)

/-- C1 amended witness: the concrete known-then-new page completes after one
fetch with the new trailing record inserted, on both streams. -/
theorem known_record_stops_walk_not_page_witness :
    ((processWalletTransactionsCharacter 5 envS1 dbS1 1).outcome = .completed ∧
      mkMarketTransaction 1 (tTrans 7 4) ∈
        (processWalletTransactionsCharacter 5 envS1 dbS1 1).db.marketTransactions) ∧
    ((processWalletJournalCharacter 5 envS1 dbS1 1).outcome = .completed ∧
      mkJournalEntry 1 (jTrans 7 4) ∈
        (processWalletJournalCharacter 5 envS1 dbS1 1).db.journalEntries) := by
  have h := known_record_stops_walk_not_page 4 envS1 dbS1 1 ⟨1, 1, "x"⟩ ⟨1, 0, "", true⟩
    ⟨[tTrans 10 5, tTrans 7 4], 99⟩ ⟨[jTrans 10 5, jTrans 7 4], 99⟩
    (by decide) (by decide) rfl (by decide) ⟨tTrans 10 5, by decide, by decide⟩
    rfl (by decide) ⟨jTrans 10 5, by decide, by decide⟩
  exact ⟨⟨h.1.1, h.1.2.2 (tTrans 7 4) (by decide) (by decide)⟩,
    ⟨h.2.1, h.2.2.2 (jTrans 7 4) (by decide) (by decide)⟩⟩

/-! C2: how many pages a walk over a backward-paginated feed fetches. -/

/-- In a list whose key strictly decreases along it, the last element's key is
strictly below every other element's. -/
theorem getLast_pairwise_lt {f : α → Nat} {l : List α} (h : l ≠ [])
    (hp : l.Pairwise (fun a b => f b < f a)) :
    ∀ t ∈ l, t ≠ l.getLast h → f (l.getLast h) < f t := by
  induction l with
  | nil => exact absurd rfl h
  | cons x xs ih =>
    intro t ht hne
    cases xs with
    | nil =>
      simp at ht
      exact absurd (by simp [ht, List.getLast]) hne
    | cons y ys =>
      have hxs' : y :: ys ≠ [] := by simp
      have hlast : (x :: y :: ys).getLast h = (y :: ys).getLast hxs' := rfl
      rw [hlast] at hne ⊢
      rcases List.mem_cons.mp ht with rfl | htl
      · exact (List.pairwise_cons.mp hp).1 _ (List.getLast_mem hxs')
      · exact ih hxs' (List.pairwise_cons.mp hp).2 t htl hne

/-- C2 counterexample: one new record followed by known history, page size 1:
`ceil(N / pageSize) = 1`, yet the walk performs two fetches (the second one,
driven by the cursor recomputed from the oldest stored row, returns an empty
page). -/
theorem walk_fetch_count_counterexample :
    (1 + 1 - 1) / 1 = 1 ∧
    (processWalletTransactionsCharacter 9 envS2 dbS2 1).fetchLog.length = 2 ∧
    (processWalletTransactionsCharacter 9 envS2 dbS2 1).outcome = .completed :=
  ⟨rfl, by decide, by decide⟩

/-- Fetch-count law for the wallet-transactions walk over a backward-paginated
feed of N new records followed by a nonempty, fully-stored known history: one
fetch when N < pageSize, two fetches when N ≥ pageSize. -/
theorem transWalk_fetch_count (fuel ps cu : Nat) (env : Env) (db : DB) (cid : Nat)
    (ch : Character) (k : APIKey) (newRecs knownRecs : List Transaction)
    (hfuel : 2 ≤ fuel) (hps : 1 ≤ ps)
    (hch : db.characters.find? (fun c => c.id == cid) = some ch)
    (hk : db.apikeys.find? (fun k => k.id == ch.apikey_id && k.is_valid) = some k)
    (henv : env.fetchWalletTransactions =
      paginatedTransFetch (newRecs ++ knownRecs) ps cu)
    (hok : ∀ id, env.transSaveFault id = .ok)
    (hkne : knownRecs ≠ [])
    (hdates : (newRecs ++ knownRecs).Pairwise
      (fun a b => b.transactionDateTime < a.transactionDateTime))
    (hids : ((newRecs ++ knownRecs).map (fun t => t.journalTransactionID)).Nodup)
    (hdb : db.marketTransactions = knownRecs.map (mkMarketTransaction cid)) :
    (processWalletTransactionsCharacter fuel env db cid).outcome = .completed ∧
    (processWalletTransactionsCharacter fuel env db cid).fetchLog.length =
      (if newRecs.length < ps then 1 else 2) := by
  obtain ⟨n, rfl⟩ : ∃ n, fuel = n + 2 := ⟨fuel - 2, by omega⟩
  have hid := find?_character_id hch
  have hfeedne : newRecs ++ knownRecs ≠ [] := by
    intro hcon
    exact hkne (List.append_eq_nil.mp hcon).2
  -- the row filter keeps everything: all stored rows belong to the character
  have hfilter_db : db.marketTransactions.filter (fun r => r.character == cid) =
      db.marketTransactions := by
    rw [hdb]
    refine List.filter_eq_self.mpr ?_
    intro r hr
    obtain ⟨t, ht, rfl⟩ := List.mem_map.mp hr
    simp [mkMarketTransaction]
  have hex : (db.marketTransactions.filter (fun r => r.character == cid)).map
      (fun r => r.journal_transaction_id) =
      knownRecs.map (fun t => t.journalTransactionID) := by
    rw [hfilter_db, hdb, List.map_map]
    rfl
  have hfetch1 : env.fetchWalletTransactions none =
      .ok ⟨(newRecs ++ knownRecs).take ps, cu⟩ := by
    rw [henv]
    rfl
  simp only [processWalletTransactionsCharacter, hch, hk, hfetch1, hid]
  by_cases hN : newRecs.length < ps
  · -- one fetch: the first page reaches into the known history
    rw [if_pos hN]
    obtain ⟨khd, ktl, rfl⟩ : ∃ khd ktl, knownRecs = khd :: ktl := by
      cases knownRecs with
      | nil => exact absurd rfl hkne
      | cons a l => exact ⟨a, l, rfl⟩
    have htake : (newRecs ++ khd :: ktl).take ps =
        newRecs ++ (khd :: ktl).take (ps - newRecs.length) := by
      rw [List.take_append_eq_append_take, List.take_of_length_le (by omega)]
    have hknowntake : (khd :: ktl).take (ps - newRecs.length) =
        khd :: ktl.take (ps - newRecs.length - 1) := by
      obtain ⟨m, hm⟩ : ∃ m, ps - newRecs.length = m + 1 := ⟨ps - newRecs.length - 1, by omega⟩
      rw [hm]
      simp
    have hpagene : ((newRecs ++ khd :: ktl).take ps).isEmpty = false := by
      rw [htake, hknowntake]
      cases newRecs <;> rfl
    simp only [transWalk, hpagene, Bool.false_eq_true, if_false]
    have hall : ((newRecs ++ khd :: ktl).take ps).all
        (fun t => !(decide (t.journalTransactionID ∈
          ((db.marketTransactions.filter (fun r => r.character == cid)).map
            (fun r => r.journal_transaction_id))))) = false := by
      rw [List.all_eq_false]
      refine ⟨khd, ?_, ?_⟩
      · rw [htake, hknowntake]
        exact List.mem_append_right _ (List.mem_cons_self _ _)
      · rw [hex]
        simp
    rw [transPageLoop_ok env cid _ _ db true (fun t ht => hok _), hall]
    simp
  · -- two fetches: a full page of new records, then an empty page
    rw [if_neg hN]
    push_neg at hN
    have htake : (newRecs ++ knownRecs).take ps = newRecs.take ps :=
      List.take_append_of_le_length hN
    have hlen : (newRecs.take ps).length = ps := by
      rw [List.length_take]
      omega
    have hpagene : ((newRecs ++ knownRecs).take ps).isEmpty = false := by
      rw [htake]
      cases hp : newRecs.take ps with
      | nil => rw [hp] at hlen; simp at hlen; omega
      | cons a l => rfl
    simp only [transWalk, hpagene, Bool.false_eq_true, if_false]
    have hnotmem : ∀ t ∈ (newRecs ++ knownRecs).take ps, t.journalTransactionID ∉
        ((db.marketTransactions.filter (fun r => r.character == cid)).map
          (fun r => r.journal_transaction_id)) := by
      intro t ht
      rw [hex]
      rw [htake] at ht
      have htn : t ∈ newRecs := List.mem_of_mem_take ht
      have hdisj : List.Disjoint (newRecs.map (fun t => t.journalTransactionID))
          (knownRecs.map (fun t => t.journalTransactionID)) := by
        rw [List.map_append] at hids
        exact List.disjoint_of_nodup_append hids
      exact fun hmem => hdisj (List.mem_map_of_mem _ htn) hmem
    have hfilterpage : ((newRecs ++ knownRecs).take ps).filter
        (fun t => !(decide (t.journalTransactionID ∈
          ((db.marketTransactions.filter (fun r => r.character == cid)).map
            (fun r => r.journal_transaction_id))))) = (newRecs ++ knownRecs).take ps :=
      List.filter_eq_self.mpr (fun t ht => by simp [hnotmem t ht])
    have hallpage : ((newRecs ++ knownRecs).take ps).all
        (fun t => !(decide (t.journalTransactionID ∈
          ((db.marketTransactions.filter (fun r => r.character == cid)).map
            (fun r => r.journal_transaction_id))))) = true :=
      List.all_eq_true.mpr (fun t ht => by simp [hnotmem t ht])
    rw [transPageLoop_ok env cid _ _ db true (fun t ht => hok _), hfilterpage, hallpage]
    simp only [Bool.and_self, if_true]
    -- the new row table and the oldest row in it
    have hrows : db.marketTransactions ++
        ((newRecs ++ knownRecs).take ps).map (mkMarketTransaction cid) =
        (knownRecs ++ newRecs.take ps).map (mkMarketTransaction cid) := by
      rw [hdb, htake, List.map_append]
    have hrowsfilter : ((knownRecs ++ newRecs.take ps).map (mkMarketTransaction cid)).filter
        (fun r => r.character == cid) =
        (knownRecs ++ newRecs.take ps).map (mkMarketTransaction cid) := by
      refine List.filter_eq_self.mpr ?_
      intro r hr
      obtain ⟨t, ht, rfl⟩ := List.mem_map.mp hr
      simp [mkMarketTransaction]
    have hlastfeed : knownRecs.getLast hkne = (newRecs ++ knownRecs).getLast hfeedne :=
      (List.getLast_append' newRecs knownRecs hkne).symm
    have hmin : oldestBy (fun r => r.date)
        (((knownRecs ++ newRecs.take ps).map (mkMarketTransaction cid)).filter
          (fun r => r.character == cid)) =
        some (mkMarketTransaction cid (knownRecs.getLast hkne)) := by
      rw [hrowsfilter]
      refine oldestBy_strictMin ?_ ?_
      · exact List.mem_map_of_mem _ (List.mem_append_left _ (List.getLast_mem hkne))
      · intro x hx hne
        obtain ⟨t, ht, rfl⟩ := List.mem_map.mp hx
        have htfeed : t ∈ newRecs ++ knownRecs := by
          rcases List.mem_append.mp ht with h1 | h2
          · exact List.mem_append_right _ h1
          · exact List.mem_append_left _ (List.mem_of_mem_take h2)
        have htne : t ≠ (newRecs ++ knownRecs).getLast hfeedne := by
          intro hcon
          apply hne
          rw [hlastfeed, hcon]
        have := getLast_pairwise_lt hfeedne hdates t htfeed htne
        show (mkMarketTransaction cid (knownRecs.getLast hkne)).date <
          (mkMarketTransaction cid t).date
        simp only [mkMarketTransaction]
        rw [hlastfeed]
        exact this
    simp only [hrows, hmin]
    have hfetch2 : env.fetchWalletTransactions
        (some (mkMarketTransaction cid (knownRecs.getLast hkne)).journal_transaction_id) =
        .ok ⟨[], cu⟩ := by
      rw [henv]
      show paginatedTransFetch (newRecs ++ knownRecs) ps cu
        (some (knownRecs.getLast hkne).journalTransactionID) = .ok ⟨[], cu⟩
      simp only [paginatedTransFetch]
      have h0 := feedAfter_getLast (fun t => t.journalTransactionID)
        (newRecs ++ knownRecs) hfeedne hids
      rw [hlastfeed, h0]
      simp
    simp only [hfetch2]
    simp [transWalk]

/-- Fetch-count law for the wallet-journal walk, mirroring
`transWalk_fetch_count`. -/
theorem journalWalk_fetch_count (fuel ps cu : Nat) (env : Env) (db : DB) (cid : Nat)
    (ch : Character) (k : APIKey) (newRecs knownRecs : List JTransaction)
    (hfuel : 2 ≤ fuel) (hps : 1 ≤ ps)
    (hch : db.characters.find? (fun c => c.id == cid) = some ch)
    (hk : db.apikeys.find? (fun k => k.id == ch.apikey_id && k.is_valid) = some k)
    (henv : env.fetchWalletJournal =
      paginatedJournalFetch (newRecs ++ knownRecs) ps cu)
    (hok : ∀ id, env.journalSaveFault id = .ok)
    (hkne : knownRecs ≠ [])
    (hdates : (newRecs ++ knownRecs).Pairwise (fun a b => b.date < a.date))
    (hids : ((newRecs ++ knownRecs).map (fun t => t.refID)).Nodup)
    (hdb : db.journalEntries = knownRecs.map (mkJournalEntry cid)) :
    (processWalletJournalCharacter fuel env db cid).outcome = .completed ∧
    (processWalletJournalCharacter fuel env db cid).fetchLog.length =
      (if newRecs.length < ps then 1 else 2) := by
  obtain ⟨n, rfl⟩ : ∃ n, fuel = n + 2 := ⟨fuel - 2, by omega⟩
  have hid := find?_character_id hch
  have hfeedne : newRecs ++ knownRecs ≠ [] := by
    intro hcon
    exact hkne (List.append_eq_nil.mp hcon).2
  have hfilter_db : db.journalEntries.filter (fun r => r.character == cid) =
      db.journalEntries := by
    rw [hdb]
    refine List.filter_eq_self.mpr ?_
    intro r hr
    obtain ⟨t, ht, rfl⟩ := List.mem_map.mp hr
    simp [mkJournalEntry]
  have hex : (db.journalEntries.filter (fun r => r.character == cid)).map
      (fun r => r.ref_id) = knownRecs.map (fun t => t.refID) := by
    rw [hfilter_db, hdb, List.map_map]
    rfl
  have hfetch1 : env.fetchWalletJournal none =
      .ok ⟨(newRecs ++ knownRecs).take ps, cu⟩ := by
    rw [henv]
    rfl
  simp only [processWalletJournalCharacter, hch, hk, hfetch1, hid]
  by_cases hN : newRecs.length < ps
  · rw [if_pos hN]
    obtain ⟨khd, ktl, rfl⟩ : ∃ khd ktl, knownRecs = khd :: ktl := by
      cases knownRecs with
      | nil => exact absurd rfl hkne
      | cons a l => exact ⟨a, l, rfl⟩
    have htake : (newRecs ++ khd :: ktl).take ps =
        newRecs ++ (khd :: ktl).take (ps - newRecs.length) := by
      rw [List.take_append_eq_append_take, List.take_of_length_le (by omega)]
    have hknowntake : (khd :: ktl).take (ps - newRecs.length) =
        khd :: ktl.take (ps - newRecs.length - 1) := by
      obtain ⟨m, hm⟩ : ∃ m, ps - newRecs.length = m + 1 := ⟨ps - newRecs.length - 1, by omega⟩
      rw [hm]
      simp
    have hpagene : ((newRecs ++ khd :: ktl).take ps).isEmpty = false := by
      rw [htake, hknowntake]
      cases newRecs <;> rfl
    simp only [journalWalk, hpagene, Bool.false_eq_true, if_false]
    have hall : ((newRecs ++ khd :: ktl).take ps).all
        (fun t => !(decide (t.refID ∈
          ((db.journalEntries.filter (fun r => r.character == cid)).map
            (fun r => r.ref_id))))) = false := by
      rw [List.all_eq_false]
      refine ⟨khd, ?_, ?_⟩
      · rw [htake, hknowntake]
        exact List.mem_append_right _ (List.mem_cons_self _ _)
      · rw [hex]
        simp
    rw [journalPageLoop_ok env cid _ _ db true (fun t ht => hok _), hall]
    simp
  · rw [if_neg hN]
    push_neg at hN
    have htake : (newRecs ++ knownRecs).take ps = newRecs.take ps :=
      List.take_append_of_le_length hN
    have hlen : (newRecs.take ps).length = ps := by
      rw [List.length_take]
      omega
    have hpagene : ((newRecs ++ knownRecs).take ps).isEmpty = false := by
      rw [htake]
      cases hp : newRecs.take ps with
      | nil => rw [hp] at hlen; simp at hlen; omega
      | cons a l => rfl
    simp only [journalWalk, hpagene, Bool.false_eq_true, if_false]
    have hnotmem : ∀ t ∈ (newRecs ++ knownRecs).take ps, t.refID ∉
        ((db.journalEntries.filter (fun r => r.character == cid)).map
          (fun r => r.ref_id)) := by
      intro t ht
      rw [hex]
      rw [htake] at ht
      have htn : t ∈ newRecs := List.mem_of_mem_take ht
      have hdisj : List.Disjoint (newRecs.map (fun t => t.refID))
          (knownRecs.map (fun t => t.refID)) := by
        rw [List.map_append] at hids
        exact List.disjoint_of_nodup_append hids
      exact fun hmem => hdisj (List.mem_map_of_mem _ htn) hmem
    have hfilterpage : ((newRecs ++ knownRecs).take ps).filter
        (fun t => !(decide (t.refID ∈
          ((db.journalEntries.filter (fun r => r.character == cid)).map
            (fun r => r.ref_id))))) = (newRecs ++ knownRecs).take ps :=
      List.filter_eq_self.mpr (fun t ht => by simp [hnotmem t ht])
    have hallpage : ((newRecs ++ knownRecs).take ps).all
        (fun t => !(decide (t.refID ∈
          ((db.journalEntries.filter (fun r => r.character == cid)).map
            (fun r => r.ref_id))))) = true :=
      List.all_eq_true.mpr (fun t ht => by simp [hnotmem t ht])
    rw [journalPageLoop_ok env cid _ _ db true (fun t ht => hok _), hfilterpage, hallpage]
    simp only [Bool.and_self, if_true]
    have hrows : db.journalEntries ++
        ((newRecs ++ knownRecs).take ps).map (mkJournalEntry cid) =
        (knownRecs ++ newRecs.take ps).map (mkJournalEntry cid) := by
      rw [hdb, htake, List.map_append]
    have hrowsfilter : ((knownRecs ++ newRecs.take ps).map (mkJournalEntry cid)).filter
        (fun r => r.character == cid) =
        (knownRecs ++ newRecs.take ps).map (mkJournalEntry cid) := by
      refine List.filter_eq_self.mpr ?_
      intro r hr
      obtain ⟨t, ht, rfl⟩ := List.mem_map.mp hr
      simp [mkJournalEntry]
    have hlastfeed : knownRecs.getLast hkne = (newRecs ++ knownRecs).getLast hfeedne :=
      (List.getLast_append' newRecs knownRecs hkne).symm
    have hmin : oldestBy (fun r => r.date)
        (((knownRecs ++ newRecs.take ps).map (mkJournalEntry cid)).filter
          (fun r => r.character == cid)) =
        some (mkJournalEntry cid (knownRecs.getLast hkne)) := by
      rw [hrowsfilter]
      refine oldestBy_strictMin ?_ ?_
      · exact List.mem_map_of_mem _ (List.mem_append_left _ (List.getLast_mem hkne))
      · intro x hx hne
        obtain ⟨t, ht, rfl⟩ := List.mem_map.mp hx
        have htfeed : t ∈ newRecs ++ knownRecs := by
          rcases List.mem_append.mp ht with h1 | h2
          · exact List.mem_append_right _ h1
          · exact List.mem_append_left _ (List.mem_of_mem_take h2)
        have htne : t ≠ (newRecs ++ knownRecs).getLast hfeedne := by
          intro hcon
          apply hne
          rw [hlastfeed, hcon]
        have := getLast_pairwise_lt hfeedne hdates t htfeed htne
        show (mkJournalEntry cid (knownRecs.getLast hkne)).date <
          (mkJournalEntry cid t).date
        simp only [mkJournalEntry]
        rw [hlastfeed]
        exact this
    simp only [hrows, hmin]
    have hfetch2 : env.fetchWalletJournal
        (some (mkJournalEntry cid (knownRecs.getLast hkne)).ref_id) =
        .ok ⟨[], cu⟩ := by
      rw [henv]
      show paginatedJournalFetch (newRecs ++ knownRecs) ps cu
        (some (knownRecs.getLast hkne).refID) = .ok ⟨[], cu⟩
      simp only [paginatedJournalFetch]
      have h0 := feedAfter_getLast (fun t => t.refID)
        (newRecs ++ knownRecs) hfeedne hids
      rw [hlastfeed, h0]
      simp
    simp only [hfetch2]
    simp [journalWalk]

/-- C2 amended: over a backward-paginated feed of N new records followed by a
nonempty, fully-stored known history, a wallet walk (transactions or journal)
terminates successfully; it fetches exactly one page when N < pageSize (the
first page already contains a known record, so no further page is fetched),
and exactly two pages when N ≥ pageSize — a full page of new records and
then, the cursor being recomputed as the oldest stored row overall (the tail
of the known history), an empty page, at which the walk stops.  The count is
therefore not `ceil(N / pageSize)` in general. -/
theorem walk_fetch_count (fuel ps cu : Nat) (env : Env) (db : DB) (cid : Nat)
    (ch : Character) (k : APIKey) (newRecs knownRecs : List Transaction)
    (jNewRecs jKnownRecs : List JTransaction)
    (hfuel : 2 ≤ fuel) (hps : 1 ≤ ps)
    (hch : db.characters.find? (fun c => c.id == cid) = some ch)
    (hk : db.apikeys.find? (fun k => k.id == ch.apikey_id && k.is_valid) = some k)
    (henv : env.fetchWalletTransactions =
      paginatedTransFetch (newRecs ++ knownRecs) ps cu)
    (hok : ∀ id, env.transSaveFault id = .ok)
    (hkne : knownRecs ≠ [])
    (hdates : (newRecs ++ knownRecs).Pairwise
      (fun a b => b.transactionDateTime < a.transactionDateTime))
    (hids : ((newRecs ++ knownRecs).map (fun t => t.journalTransactionID)).Nodup)
    (hdb : db.marketTransactions = knownRecs.map (mkMarketTransaction cid))
    (hjenv : env.fetchWalletJournal =
      paginatedJournalFetch (jNewRecs ++ jKnownRecs) ps cu)
    (hjok : ∀ id, env.journalSaveFault id = .ok)
    (hjkne : jKnownRecs ≠ [])
    (hjdates : (jNewRecs ++ jKnownRecs).Pairwise (fun a b => b.date < a.date))
    (hjids : ((jNewRecs ++ jKnownRecs).map (fun t => t.refID)).Nodup)
    (hjdb : db.journalEntries = jKnownRecs.map (mkJournalEntry cid)) :
    ((processWalletTransactionsCharacter fuel env db cid).outcome = .completed ∧
      (processWalletTransactionsCharacter fuel env db cid).fetchLog.length =
        (if newRecs.length < ps then 1 else 2)) ∧
    ((processWalletJournalCharacter fuel env db cid).outcome = .completed ∧
      (processWalletJournalCharacter fuel env db cid).fetchLog.length =
        (if jNewRecs.length < ps then 1 else 2)) :=
  ⟨transWalk_fetch_count fuel ps cu env db cid ch k newRecs knownRecs hfuel hps
      hch hk henv hok hkne hdates hids hdb,
    journalWalk_fetch_count fuel ps cu env db cid ch k jNewRecs jKnownRecs hfuel hps
      hch hk hjenv hjok hjkne hjdates hjids hjdb⟩

/-- C2 amended witness: the concrete paginated scenario (N = 1 = pageSize)
completes with two fetches on both streams. -/
theorem walk_fetch_count_witness :
    ((processWalletTransactionsCharacter 9 envS2 dbS2 1).outcome = .completed ∧
      (processWalletTransactionsCharacter 9 envS2 dbS2 1).fetchLog.length =
        (if ([tTrans 2 2] : List Transaction).length < 1 then 1 else 2)) ∧
    ((processWalletJournalCharacter 9 envS2 dbS2 1).outcome = .completed ∧
      (processWalletJournalCharacter 9 envS2 dbS2 1).fetchLog.length =
        (if ([jTrans 2 2] : List JTransaction).length < 1 then 1 else 2)) :=
  walk_fetch_count 9 1 77 envS2 dbS2 1 ⟨1, 1, "x"⟩ ⟨1, 0, "", true⟩
    [tTrans 2 2] [tTrans 1 1] [jTrans 2 2] [jTrans 1 1] (by omega) (by omega)
    (by decide) (by decide) rfl (fun i => rfl) (by decide) (by decide)
    (by decide) (by decide) rfl (fun i => rfl) (by decide) (by decide)
    (by decide) (by decide)

/-! C5: what a referential-integrity failure on a single record does. -/

/-- Scenario: record id 5 hits an `IntegrityError` on save in either stream;
the page holds it followed by a good record (id 3). -/
def envS5 : Env := { baseEnv with
  fetchWalletTransactions := fun c => match c with
    | none => .ok ⟨[tTrans 5 5, tTrans 3 3], 99⟩
    | some _ => .ok ⟨[], 99⟩
  fetchWalletJournal := fun c => match c with
    | none => .ok ⟨[jTrans 5 5, jTrans 3 3], 99⟩
    | some _ => .ok ⟨[], 99⟩
  transSaveFault := fun j => if j == 5 then .integrityError else .ok
  journalSaveFault := fun j => if j == 5 then .integrityError else .ok }

/-- C5 counterexample: on the wallet-journal stream an `IntegrityError` on the
first record of the page does not merely skip that record — the whole run
crashes and the good record after it is never inserted. -/
theorem integrity_error_counterexample :
    envS5.journalSaveFault 5 = .integrityError ∧
    (processWalletJournalCharacter 5 envS5 baseDB 1).outcome = .crashed ∧
    (processWalletJournalCharacter 5 envS5 baseDB 1).db.journalEntries = [] :=
  ⟨rfl, by decide, by decide⟩

/-- C5 amended: a referential-integrity failure on a single record is logged
and skipped — the rest of the page is still processed — on the
wallet-transactions stream only; on the wallet-journal stream there is no such
handler, so the failure aborts the run on the spot (the remaining records of
the page are not processed). -/
theorem integrity_error_handling (env : Env) (cid : Nat) (existing : List Nat)
    (t : Transaction) (jt : JTransaction) (rest : List Transaction)
    (jrest : List JTransaction) (db : DB) (w : Bool)
    (hfault : env.transSaveFault t.journalTransactionID = .integrityError)
    (hnew : t.journalTransactionID ∉ existing)
    (hjfault : env.journalSaveFault jt.refID = .integrityError)
    (hjnew : jt.refID ∉ existing) :
    transPageLoop env cid existing (t :: rest) db w =
      transPageLoop env cid existing rest db w ∧
    journalPageLoop env cid existing (jt :: jrest) db w = (db, w, true) := by
  constructor
  · simp only [transPageLoop, if_neg hnew, hfault]
  · simp only [journalPageLoop, if_neg hjnew, hjfault]

/-- C5 amended witness: the concrete faulting record is dropped from the page
on the transactions stream and crashes the journal page loop. -/
theorem integrity_error_handling_witness :
    transPageLoop envS5 1 [] [tTrans 5 5, tTrans 3 3] baseDB true =
      transPageLoop envS5 1 [] [tTrans 3 3] baseDB true ∧
    journalPageLoop envS5 1 [] [jTrans 5 5, jTrans 3 3] baseDB true =
      (baseDB, true, true) :=
  integrity_error_handling envS5 1 [] (tTrans 5 5) (jTrans 5 5) [tTrans 3 3]
    [jTrans 3 3] baseDB true rfl (by decide) rfl (by decide)

/-! C6: what the duplicate-row cleanup does. -/

/-- Scenario: two duplicate rows (reference id 8) stored on each wallet
stream for character 1. -/
def dbS6 : DB := { baseDB with
  marketTransactions := [mkMarketTransaction 1 (tTrans 8 2), mkMarketTransaction 1 (tTrans 8 2)]
  journalEntries := [mkJournalEntry 1 (jTrans 8 2), mkJournalEntry 1 (jTrans 8 2)] }

/-- Scenario: saving record id 8 raises `MultipleObjectsReturned` on either
stream. -/
def envS6 : Env := { baseEnv with
  transSaveFault := fun j => if j == 8 then .multipleObjectsReturned else .ok
  journalSaveFault := fun j => if j == 8 then .multipleObjectsReturned else .ok }

/-- C6 counterexample: on the wallet-transactions stream the
`MultipleObjectsReturned` handler (whose `except` block sits outside the
`for` loop) does reduce the duplicates to one row, but processing of the page
does not continue: the next record of the page (id 9) is never inserted.
`existing` is the stale snapshot taken before a concurrent worker inserted
the duplicates. -/
theorem duplicate_cleanup_counterexample :
    dbS6.marketTransactions.countP
      (fun r => r.journal_transaction_id == 8 && r.character == 1) = 2 ∧
    (transPageLoop envS6 1 [] [tTrans 8 2, tTrans 9 9] dbS6 true).1.marketTransactions.countP
      (fun r => r.journal_transaction_id == 8 && r.character == 1) = 1 ∧
    mkMarketTransaction 1 (tTrans 9 9) ∉
      (transPageLoop envS6 1 [] [tTrans 8 2, tTrans 9 9] dbS6 true).1.marketTransactions :=
  ⟨by decide, by decide, by decide⟩

/-- C6 amended: when a save raises `MultipleObjectsReturned` and at least one
row with that reference id is stored for the character, the handler deletes
all but the first such row, leaving exactly one; the wallet-journal walker
then continues with the remaining records of the page, while the
wallet-transactions walker abandons the remainder of the page (its walk
resumes at the next fetch decision with the walking value unchanged). -/
theorem duplicate_cleanup (env : Env) (cid : Nat) (existing : List Nat)
    (t : Transaction) (jt : JTransaction) (rest : List Transaction)
    (jrest : List JTransaction) (db : DB) (w : Bool)
    (hfault : env.transSaveFault t.journalTransactionID = .multipleObjectsReturned)
    (hnew : t.journalTransactionID ∉ existing)
    (hjfault : env.journalSaveFault jt.refID = .multipleObjectsReturned)
    (hjnew : jt.refID ∉ existing)
    (hdup : 1 ≤ db.marketTransactions.countP
      (fun r => r.journal_transaction_id == t.journalTransactionID && r.character == cid))
    (hjdup : 1 ≤ db.journalEntries.countP
      (fun r => r.ref_id == jt.refID && r.character == cid)) :
    (transPageLoop env cid existing (t :: rest) db w =
      ({ db with marketTransactions := (deleteDuplicatesKeepFirst
          (fun r => r.journal_transaction_id == t.journalTransactionID && r.character == cid)
          db.marketTransactions) }, w) ∧
      (transPageLoop env cid existing (t :: rest) db w).1.marketTransactions.countP
        (fun r => r.journal_transaction_id == t.journalTransactionID && r.character == cid) = 1) ∧
    (journalPageLoop env cid existing (jt :: jrest) db w =
      journalPageLoop env cid existing jrest
        { db with journalEntries := (deleteDuplicatesKeepFirst
            (fun r => r.ref_id == jt.refID && r.character == cid) db.journalEntries) } w ∧
      (deleteDuplicatesKeepFirst (fun r => r.ref_id == jt.refID && r.character == cid)
          db.journalEntries).countP
        (fun r => r.ref_id == jt.refID && r.character == cid) = 1) := by
  have h1 : transPageLoop env cid existing (t :: rest) db w =
      ({ db with marketTransactions := (deleteDuplicatesKeepFirst
          (fun r => r.journal_transaction_id == t.journalTransactionID && r.character == cid)
          db.marketTransactions) }, w) := by
    simp only [transPageLoop, if_neg hnew, hfault]
  refine ⟨⟨h1, ?_⟩, ⟨?_, ?_⟩⟩
  · rw [h1]
    show (deleteDuplicatesKeepFirst _ db.marketTransactions).countP _ = 1
    rw [countP_deleteDuplicatesKeepFirst]
    omega
  · simp only [journalPageLoop, if_neg hjnew, hjfault]
  · rw [countP_deleteDuplicatesKeepFirst]
    omega

/-- C6 amended witness: the concrete duplicate pair is reduced to a single
row on both streams. -/
theorem duplicate_cleanup_witness :
    (transPageLoop envS6 1 [] [tTrans 8 2, tTrans 9 9] dbS6 true =
      ({ dbS6 with marketTransactions := (deleteDuplicatesKeepFirst
          (fun r => r.journal_transaction_id == 8 && r.character == 1)
          dbS6.marketTransactions) }, true) ∧
      (transPageLoop envS6 1 [] [tTrans 8 2, tTrans 9 9] dbS6 true).1.marketTransactions.countP
        (fun r => r.journal_transaction_id == 8 && r.character == 1) = 1) ∧
    (journalPageLoop envS6 1 [] [jTrans 8 2, jTrans 9 9] dbS6 true =
      journalPageLoop envS6 1 [] [jTrans 9 9]
        { dbS6 with journalEntries := (deleteDuplicatesKeepFirst
            (fun r => r.ref_id == 8 && r.character == 1) dbS6.journalEntries) } true ∧
      (deleteDuplicatesKeepFirst (fun r => r.ref_id == 8 && r.character == 1)
          dbS6.journalEntries).countP
        (fun r => r.ref_id == 8 && r.character == 1) = 1) :=
  duplicate_cleanup envS6 1 [] (tTrans 8 2) (jTrans 8 2) [tTrans 9 9] [jTrans 9 9]
    dbS6 true rfl (by decide) rfl (by decide) (by decide) (by decide)

/-! C9: the research task replaces, it does not merge. -/

/-- Scenario: a fetched research sheet with one job, and a database already
holding an old job for character 1 and one for character 2. -/
def dbS9 : DB := { baseDB with
  characters := [⟨1, 1, "x"⟩, ⟨2, 1, "y"⟩]
  research := [mkResearch 1 ⟨9, 9, 9, 9, 9⟩, mkResearch 2 ⟨8, 8, 8, 8, 8⟩] }

/-- Scenario environment serving one research job. -/
def envS9 : Env := { baseEnv with
  fetchResearch := .ok ⟨[⟨1, 2, 3, 4, 5⟩], 55⟩ }

/-- C9: a successful research run first deletes every stored job of the
character and then inserts one row per job of the fetched sheet: afterwards
the character's stored jobs are exactly the sheet's jobs (full replacement),
and other characters' rows are untouched. -/
theorem research_full_replacement (env : Env) (db : DB) (cid : Nat)
    (ch : Character) (k : APIKey) (sheet : ResearchSheet)
    (hch : db.characters.find? (fun c => c.id == cid) = some ch)
    (hk : db.apikeys.find? (fun k => k.id == ch.apikey_id && k.is_valid) = some k)
    (hf : env.fetchResearch = .ok sheet) :
    (processResearchCharacter env db cid).outcome = .completed ∧
    (processResearchCharacter env db cid).db.research.filter
      (fun r => r.character == cid) = sheet.research.map (mkResearch cid) ∧
    (processResearchCharacter env db cid).db.research.filter
      (fun r => !(r.character == cid)) =
      db.research.filter (fun r => !(r.character == cid)) := by
  have hid := find?_character_id hch
  simp only [processResearchCharacter, hch, hk, hf, hid]
  refine ⟨by simp, ?_, ?_⟩
  · rw [List.filter_append]
    have h1 : (db.research.filter (fun r => !(r.character == cid))).filter
        (fun r => r.character == cid) = [] := by
      rw [List.filter_eq_nil_iff]
      intro a ha
      have := List.of_mem_filter ha
      simp at this
      simp [this]
    have h2 : (sheet.research.map (mkResearch cid)).filter
        (fun r => r.character == cid) = sheet.research.map (mkResearch cid) := by
      refine List.filter_eq_self.mpr ?_
      intro r hr
      obtain ⟨j, hj, rfl⟩ := List.mem_map.mp hr
      simp [mkResearch]
    rw [h1, h2, List.nil_append]
  · rw [List.filter_append]
    have h3 : (sheet.research.map (mkResearch cid)).filter
        (fun r => !(r.character == cid)) = [] := by
      rw [List.filter_eq_nil_iff]
      intro a ha
      obtain ⟨j, hj, rfl⟩ := List.mem_map.mp ha
      simp [mkResearch]
    have h4 : (db.research.filter (fun r => !(r.character == cid))).filter
        (fun r => !(r.character == cid)) =
        db.research.filter (fun r => !(r.character == cid)) := by
      refine List.filter_eq_self.mpr ?_
      intro r hr
      exact (List.mem_filter.mp hr).2
    rw [h3, h4, List.append_nil]

/-- C9 witness: the concrete sheet replaces character 1's old job and leaves
character 2's row alone. -/
theorem research_full_replacement_witness :
    (processResearchCharacter envS9 dbS9 1).outcome = .completed ∧
    (processResearchCharacter envS9 dbS9 1).db.research.filter
      (fun r => r.character == 1) = [⟨1, 2, 3, 4, 5⟩].map (mkResearch 1) ∧
    (processResearchCharacter envS9 dbS9 1).db.research.filter
      (fun r => !(r.character == 1)) =
      dbS9.research.filter (fun r => !(r.character == 1)) :=
  research_full_replacement envS9 dbS9 1 ⟨1, 1, "x"⟩ ⟨1, 0, "", true⟩
    ⟨[⟨1, 2, 3, 4, 5⟩], 55⟩ (by decide) (by decide) rfl

/-! C10: the bill-of-materials merge. -/

theorem bumpFirst_map_id (i : Nat) (q : Int) (l : List Material) :
    (bumpFirst i q l).map (fun m => m.id) = l.map (fun m => m.id) := by
  induction l with
  | nil => rfl
  | cons m rest ih =>
    simp only [bumpFirst]
    by_cases hm : m.id = i
    · simp [hm]
    · simp [hm, ih]

theorem mem_bumpFirst (i : Nat) (q : Int) (l : List Material) (m : Material)
    (hm : m ∈ bumpFirst i q l) :
    ∃ m0 ∈ l, m0.id = m.id ∧ Material.rest m = Material.rest m0 := by
  induction l with
  | nil => cases hm
  | cons a rest ih =>
    simp only [bumpFirst] at hm
    by_cases ha : a.id = i
    · simp only [ha, beq_self_eq_true, if_true] at hm
      rcases List.mem_cons.mp hm with rfl | hr
      · exact ⟨a, List.mem_cons_self _ _, by simp [ha], by simp [Material.rest, ha]⟩
      · exact ⟨m, List.mem_cons_of_mem _ hr, rfl, rfl⟩
    · have hb : (a.id == i) = false := by simp [ha]
      rw [hb] at hm
      simp only [Bool.false_eq_true, if_false] at hm
      rcases List.mem_cons.mp hm with rfl | hr
      · exact ⟨m, List.mem_cons_self _ _, rfl, rfl⟩
      · obtain ⟨m0, hm0, hid, hrest⟩ := ih hr
        exact ⟨m0, List.mem_cons_of_mem _ hm0, hid, hrest⟩

theorem totalQty_cons (j : Nat) (m : Material) (l : List Material) :
    totalQty j (m :: l) = (if m.id = j then m.quantity else 0) + totalQty j l := by
  simp only [totalQty, List.filter_cons]
  by_cases hm : m.id = j
  · simp [hm]
  · simp [hm]

theorem totalQty_append (j : Nat) (a b : List Material) :
    totalQty j (a ++ b) = totalQty j a + totalQty j b := by
  simp [totalQty, List.filter_append]

theorem totalQty_bumpFirst (i j : Nat) (q : Int) (l : List Material)
    (hmem : l.any (fun m => m.id == i) = true) :
    totalQty j (bumpFirst i q l) =
      totalQty j l + (if i = j then q else 0) := by
  induction l with
  | nil => simp at hmem
  | cons a rest ih =>
    simp only [bumpFirst]
    by_cases ha : a.id = i
    · simp only [ha, beq_self_eq_true, if_true]
      rw [totalQty_cons, totalQty_cons]
      by_cases hj : i = j
      · have : a.id = j := by rw [ha, hj]
        simp only [this, if_true, hj]
        show a.quantity + q + totalQty j rest = a.quantity + totalQty j rest + q
        omega
      · have : ¬(a.id = j) := by rw [ha]; exact hj
        simp [this, hj]
    · have hb : (a.id == i) = false := by simp [ha]
      rw [hb]
      simp only [Bool.false_eq_true, if_false]
      have hmem' : rest.any (fun m => m.id == i) = true := by
        simp only [List.any_cons, hb, Bool.false_or] at hmem
        exact hmem
      rw [totalQty_cons, totalQty_cons, ih hmem']
      omega

theorem totalQty_mergeStep (j : Nat) (acc : List Material) (item : Material) :
    totalQty j (mergeStep acc item) =
      totalQty j acc + (if item.id = j then item.quantity else 0) := by
  simp only [mergeStep]
  by_cases hmatch : acc.any (fun m => m.id == item.id) = true
  · rw [if_pos hmatch, totalQty_bumpFirst _ _ _ _ hmatch]
  · rw [if_neg hmatch, totalQty_append, totalQty_cons]
    simp [totalQty]

theorem mergeStep_map_id_nodup (acc : List Material) (item : Material)
    (h : (acc.map (fun m => m.id)).Nodup) :
    ((mergeStep acc item).map (fun m => m.id)).Nodup := by
  simp only [mergeStep]
  by_cases hmatch : acc.any (fun m => m.id == item.id) = true
  · rw [if_pos hmatch, bumpFirst_map_id]
    exact h
  · rw [if_neg hmatch, List.map_append]
    rw [List.nodup_append]
    refine ⟨h, by simp, ?_⟩
    intro x hx
    simp only [List.map_cons, List.map_nil, List.mem_singleton]
    intro hxid
    obtain ⟨m, hm, rfl⟩ := List.mem_map.mp hx
    simp only [List.any_eq_true, not_exists, not_and] at hmatch
    have hne := hmatch m hm
    simp only [beq_iff_eq] at hne
    exact hne hxid

theorem merge_go_nodup (l : List Material) (acc : List Material)
    (h : (acc.map (fun m => m.id)).Nodup) :
    ((l.foldl mergeStep acc).map (fun m => m.id)).Nodup := by
  induction l generalizing acc with
  | nil => simpa using h
  | cons item rest ih =>
    simp only [List.foldl_cons]
    exact ih _ (mergeStep_map_id_nodup acc item h)

theorem merge_go_totalQty (j : Nat) (l : List Material) (acc : List Material) :
    totalQty j (l.foldl mergeStep acc) = totalQty j acc + totalQty j l := by
  induction l generalizing acc with
  | nil => simp [totalQty]
  | cons item rest ih =>
    simp only [List.foldl_cons]
    rw [ih, totalQty_mergeStep, totalQty_cons]
    omega

theorem merge_go_find (l : List Material) (acc processed : List Material)
    (hrep : ∀ x ∈ processed, ∃ m ∈ acc, m.id = x.id)
    (hfirst : ∀ m ∈ acc, ∃ f, processed.find? (fun x => x.id == m.id) = some f ∧
      Material.rest m = Material.rest f) :
    ∀ m ∈ l.foldl mergeStep acc,
      ∃ f, (processed ++ l).find? (fun x => x.id == m.id) = some f ∧
        Material.rest m = Material.rest f := by
  induction l generalizing acc processed with
  | nil => simpa using hfirst
  | cons item rest ih =>
    simp only [List.foldl_cons]
    have hassoc : processed ++ item :: rest = (processed ++ [item]) ++ rest := by simp
    rw [hassoc]
    apply ih
    · -- every processed id (including the new item) has a representative
      intro x hx
      rcases List.mem_append.mp hx with hxp | hxi
      · obtain ⟨m, hm, hmid⟩ := hrep x hxp
        simp only [mergeStep]
        by_cases hmatch : acc.any (fun m => m.id == item.id) = true
        · rw [if_pos hmatch]
          have : m.id ∈ (bumpFirst item.id item.quantity acc).map (fun m => m.id) := by
            rw [bumpFirst_map_id]
            exact List.mem_map_of_mem _ hm
          obtain ⟨m', hm', hm'id⟩ := List.mem_map.mp this
          exact ⟨m', hm', by rw [hm'id, hmid]⟩
        · rw [if_neg hmatch]
          exact ⟨m, List.mem_append_left _ hm, hmid⟩
      · simp only [List.mem_singleton] at hxi
        rw [hxi]
        simp only [mergeStep]
        by_cases hmatch : acc.any (fun m => m.id == item.id) = true
        · rw [if_pos hmatch]
          obtain ⟨m, hm, hmid⟩ := List.any_eq_true.mp hmatch
          have : m.id ∈ (bumpFirst item.id item.quantity acc).map (fun m => m.id) := by
            rw [bumpFirst_map_id]
            exact List.mem_map_of_mem _ hm
          obtain ⟨m', hm', hm'id⟩ := List.mem_map.mp this
          refine ⟨m', hm', ?_⟩
          rw [hm'id]
          simpa using hmid
        · rw [if_neg hmatch]
          exact ⟨item, List.mem_append_right _ (List.mem_singleton.mpr rfl), rfl⟩
    · -- first-occurrence fields survive the step
      intro m hm
      simp only [mergeStep] at hm
      by_cases hmatch : acc.any (fun m => m.id == item.id) = true
      · rw [if_pos hmatch] at hm
        obtain ⟨m0, hm0, hid0, hrest0⟩ := mem_bumpFirst _ _ _ _ hm
        obtain ⟨f, hf, hrf⟩ := hfirst m0 hm0
        refine ⟨f, ?_, by rw [hrest0, hrf]⟩
        rw [List.find?_append]
        rw [← hid0]
        rw [hf]
        rfl
      · rw [if_neg hmatch] at hm
        rcases List.mem_append.mp hm with hma | hmi
        · obtain ⟨f, hf, hrf⟩ := hfirst m hma
          refine ⟨f, ?_, hrf⟩
          rw [List.find?_append, hf]
          rfl
        · simp only [List.mem_singleton] at hmi
          subst hmi
          have hnone : processed.find? (fun x => x.id == m.id) = none := by
            rw [List.find?_eq_none]
            intro x hx hpx
            obtain ⟨m', hm', hm'id⟩ := hrep x hx
            simp only [List.any_eq_true, not_exists, not_and] at hmatch
            refine hmatch m' hm' ?_
            simp only [beq_iff_eq] at hpx ⊢
            rw [hm'id]
            exact hpx
          refine ⟨m, ?_, rfl⟩
          rw [List.find?_append, hnone]
          simp

/-- In a list with pairwise-distinct ids, filtering by a member's id yields
exactly that member. -/
theorem filter_id_eq_single {l : List Material}
    (h : (l.map (fun m => m.id)).Nodup) {m : Material} (hm : m ∈ l) :
    l.filter (fun x => x.id == m.id) = [m] := by
  induction l with
  | nil => cases hm
  | cons a rest ih =>
    rw [List.map_cons, List.nodup_cons] at h
    rcases List.mem_cons.mp hm with rfl | hr
    · simp only [List.filter_cons, beq_self_eq_true, if_true]
      have : rest.filter (fun x => x.id == m.id) = [] := by
        rw [List.filter_eq_nil_iff]
        intro x hx hc
        simp only [beq_iff_eq] at hc
        exact h.1 (hc ▸ List.mem_map_of_mem _ hx)
      rw [this]
    · have hne : ¬(a.id = m.id) := by
        intro hc
        exact h.1 (hc ▸ List.mem_map_of_mem _ hr)
      simp only [List.filter_cons]
      have : (a.id == m.id) = false := by simp [hne]
      rw [this]
      simp only [Bool.false_eq_true, if_false]
      exact ih h.2 hr

/-- C10: in the merged bill of materials each material id occurs at most
once; the quantity recorded for an id is the sum of the quantities of all
entries with that id across both inputs; and every non-quantity field of an
output entry comes from the first entry with that id in the concatenated
input. -/
theorem merge_bill_of_materials_spec (materials1 materials2 : List Material) :
    ((merge_bill_of_materials materials1 materials2).map (fun m => m.id)).Nodup ∧
    (∀ m ∈ merge_bill_of_materials materials1 materials2,
      m.quantity = totalQty m.id materials1 + totalQty m.id materials2) ∧
    ∀ m ∈ merge_bill_of_materials materials1 materials2,
      ∃ f, (materials1 ++ materials2).find? (fun x => x.id == m.id) = some f ∧
        Material.rest m = Material.rest f := by
  have hnd : ((merge_bill_of_materials materials1 materials2).map (fun m => m.id)).Nodup :=
    merge_go_nodup _ [] (by simp)
  refine ⟨hnd, ?_, ?_⟩
  · intro m hm
    have htot : totalQty m.id (merge_bill_of_materials materials1 materials2) =
        totalQty m.id materials1 + totalQty m.id materials2 := by
      show totalQty m.id ((materials1 ++ materials2).foldl mergeStep []) = _
      rw [merge_go_totalQty, totalQty_append]
      simp [totalQty]
    rw [← htot]
    unfold totalQty
    rw [filter_id_eq_single hnd hm]
    simp
  · have hgo := merge_go_find (materials1 ++ materials2) [] []
      (by simp) (by simp)
    intro m hm
    have h2 := hgo m hm
    rwa [List.nil_append] at h2

/-- C10 witness: a concrete merge with an id shared across both inputs. -/
theorem merge_bill_of_materials_spec_witness :
    ((⟨1, "a", 12, 7, 0, 0, false⟩ : Material) ∈
      merge_bill_of_materials [⟨1, "a", 5, 7, 0, 0, false⟩, ⟨2, "b", 3, 1, 0, 0, true⟩]
        [⟨1, "z", 7, 9, 0, 0, true⟩]) ∧
    (⟨1, "a", 12, 7, 0, 0, false⟩ : Material).quantity =
      totalQty 1 [⟨1, "a", 5, 7, 0, 0, false⟩, ⟨2, "b", 3, 1, 0, 0, true⟩] +
        totalQty 1 [⟨1, "z", 7, 9, 0, 0, true⟩] :=
  ⟨by decide,
    (merge_bill_of_materials_spec [⟨1, "a", 5, 7, 0, 0, false⟩, ⟨2, "b", 3, 1, 0, 0, true⟩]
      [⟨1, "z", 7, 9, 0, 0, true⟩]).2.1 ⟨1, "a", 12, 7, 0, 0, false⟩ (by decide)⟩

end Element43
